import Mathlib

/-!
Verification development for the Planting-Mix-Editor repository
(src/script.py and src/Boundary.py), two IronPython (Python 2) pyRevit
plugins.  The pure string/number routines are embedded directly; the
Revit host API (geometry kernel, raycasting, document model, parameter
storage) is embedded as explicit oracle functions carried by the
document/element structures, so that every definition stays executable.

Python floats are modelled as exact rationals (ℚ).  All string data
handled by the embedded routines is ASCII, so Lean's Char functions
coincide with the Python (unicode) ones on the inputs that occur.
-/

/-! ### Python string primitives -/

/-- Default whitespace set of Python's str.strip(). -/
def pyIsSpace (c : Char) : Bool :=
  c == ' ' || c == '\t' || c == '\n' || c == '\r' || c == '\x0b' || c == '\x0c'

/-- str.strip() on a character list. -/
def pyStripList (cs : List Char) : List Char :=
  ((cs.dropWhile pyIsSpace).reverse.dropWhile pyIsSpace).reverse

/-- Embedding of Python str.strip(). -/
def pyStrip (s : String) : String := ⟨pyStripList s.data⟩

/-- Embedding of Python str.lower() (ASCII inputs). -/
def pyLower (s : String) : String := ⟨s.data.map Char.toLower⟩

/-- Does the pattern occur at the head of the list? -/
def leadsWith : List Char → List Char → Bool
  | [], _ => true
  | _ :: _, [] => false
  | a :: as, b :: bs => a == b && leadsWith as bs

/-- Left-to-right non-overlapping replacement of a (non-empty) pattern,
as performed by Python's str.replace.  Structural fuel recursion (the
fuel bounds the list length) so the kernel can evaluate it. -/
def replaceCharsAux (pat repl : List Char) : ℕ → List Char → List Char
  | 0, cs => cs
  | _ + 1, [] => []
  | fuel + 1, c :: rest =>
    if pat ≠ [] && leadsWith pat (c :: rest) then
      repl ++ replaceCharsAux pat repl fuel (rest.drop (pat.length - 1))
    else
      c :: replaceCharsAux pat repl fuel rest

/-- Left-to-right non-overlapping pattern replacement on char lists. -/
def replaceChars (pat repl cs : List Char) : List Char :=
  replaceCharsAux pat repl cs.length cs

/-- Embedding of Python str.replace. -/
def pyReplace (s pat repl : String) : String :=
  ⟨replaceChars pat.data repl.data s.data⟩

/-! ### Decimal digits: printing and parsing -/

/-- Little-endian base-10 digits, by structural (fuel) recursion so the
kernel can evaluate it; agrees with Nat.digits 10 (proved below). -/
def tenDigitsAux : ℕ → ℕ → List ℕ
  | 0, _ => []
  | fuel + 1, n => if n = 0 then [] else n % 10 :: tenDigitsAux fuel (n / 10)

/-- Little-endian base-10 digits of a natural number (fuel n is enough
since the number of digits of n is at most n). -/
def tenDigits (n : ℕ) : List ℕ := tenDigitsAux n n

/-- The character for a decimal digit. -/
def digitChar (d : ℕ) : Char := Char.ofNat (48 + d)

/-- The numeric value of a decimal digit character. -/
def digitVal (c : Char) : ℕ := c.toNat - 48

/-- Decimal character representation of a natural number
(embedding of Python str() on a nonnegative int). -/
def natToChars (n : ℕ) : List Char :=
  if n = 0 then ['0'] else (tenDigits n).reverse.map digitChar

/-- Embedding of Python str() on a nonnegative int. -/
def natToString (n : ℕ) : String := ⟨natToChars n⟩

/-- Embedding of Python str() on an int. -/
def intToString (n : ℤ) : String :=
  if n < 0 then ⟨'-' :: natToChars n.natAbs⟩ else ⟨natToChars n.natAbs⟩

/-- Value of a big-endian list of digit characters. -/
def natFromDigits (cs : List Char) : ℕ :=
  cs.foldl (fun a c => 10 * a + digitVal c) 0

/-- Core of Python float() on an unsigned numeric literal made of
digits and at most one '.', as produced by the cleaning loops of
script.py; anything else is a parse error (None). -/
def parsePyFloatCore (cs : List Char) : Option ℚ :=
  let intPart := cs.takeWhile Char.isDigit
  match cs.dropWhile Char.isDigit with
  | [] => if intPart.isEmpty then none else some ((natFromDigits intPart : ℚ))
  | '.' :: frac =>
    if frac.all Char.isDigit && (!intPart.isEmpty || !frac.isEmpty) then
      some ((natFromDigits intPart : ℚ) + (natFromDigits frac : ℚ) / 10 ^ frac.length)
    else none
  | _ => none

/-- Embedding of Python float() on the numeric strings this codebase
produces (digits, '.', optional sign, surrounding whitespace). -/
def parsePyFloat (s : String) : Option ℚ :=
  match pyStripList s.data with
  | '-' :: rest => (parsePyFloatCore rest).map (fun q => -q)
  | '+' :: rest => parsePyFloatCore rest
  | cs => parsePyFloatCore cs

/-- Embedding of Python int() on a string. -/
def parsePyInt (s : String) : Option ℤ :=
  match pyStripList s.data with
  | '-' :: rest =>
    if !rest.isEmpty && rest.all Char.isDigit then
      some (-(natFromDigits rest : ℤ))
    else none
  | '+' :: rest =>
    if !rest.isEmpty && rest.all Char.isDigit then
      some ((natFromDigits rest : ℤ))
    else none
  | cs =>
    if !cs.isEmpty && cs.all Char.isDigit then
      some ((natFromDigits cs : ℤ))
    else none

/-- Python 2 round(): halves round away from zero. -/
def pyRound (q : ℚ) : ℤ :=
  if 0 ≤ q then ⌊q + 1 / 2⌋ else -⌊-q + 1 / 2⌋

/-- Round a nonnegative rational to the nearest natural, halves to even
(the decimal rounding performed by '%.kf' on an exactly-representable
value). -/
def roundHalfEvenNat (q : ℚ) : ℕ :=
  let n := q.floor.toNat
  let r := q - q.floor
  if r < 1 / 2 then n else if 1 / 2 < r then n + 1 else if n % 2 = 0 then n else n + 1

/-- Digit characters of n left-padded with '0' to width k. -/
def padDigits (k n : ℕ) : List Char :=
  let ds := (tenDigits n).reverse.map digitChar
  List.replicate (k - ds.length) '0' ++ ds

/-- Embedding of Python's '%.kf' % q formatting, with the float
modelled as an exact rational. -/
def fmtFixed (k : ℕ) (q : ℚ) : String :=
  let m := roundHalfEvenNat (|q| * 10 ^ k)
  let body :=
    if k = 0 then natToChars m
    else natToChars (m / 10 ^ k) ++ '.' :: padDigits k (m % 10 ^ k)
  if q < 0 then ⟨'-' :: body⟩ else ⟨body⟩

/-- str.rstrip with a single-character argument, on char lists. -/
def rstripList (ch : Char) (cs : List Char) : List Char :=
  (cs.reverse.dropWhile (· == ch)).reverse

/-- Embedding of Python str.rstrip with a single-character argument. -/
def rstripChar (ch : Char) (s : String) : String :=
  ⟨rstripList ch s.data⟩

/-! ### The percent and spacing conversions (src/script.py 873-975) -/

/-- Characters kept by the cleaning loops of pct_raw_to_display and
pct_display_to_raw. -/
def pctKeepChar (c : Char) : Bool := c.isDigit || c == '.' || c == '-'

/-- Characters kept by the cleaning loops of space_raw_to_display and
space_display_to_raw. -/
def spaceKeepChar (c : Char) : Bool := c.isDigit || c == '.' || c == ',' || c == '-'

/-- Embedding of pct_raw_to_display (script.py 873-899). -/
def pct_raw_to_display (raw : String) : String :=
  let s := pyStrip raw
  if s = "" then "" else
  let s2 := pyReplace (pyReplace s "%" "") "," "."
  let sNum := pyStrip ⟨s2.data.filter pctKeepChar⟩
  if sNum = "" then "" else
  match parsePyFloat sNum with
  | none => ""
  | some val =>
    let perc := if val ≤ 1 + 1 / 1000000000 then val * 100 else val
    let intPerc := pyRound perc
    if |perc - (intPerc : ℚ)| < 1 / 1000000 then intToString intPerc ++ "%"
    else rstripChar '.' (rstripChar '0' (fmtFixed 2 perc)) ++ "%"

/-- Embedding of pct_display_to_raw (script.py 902-926). -/
def pct_display_to_raw (display : String) : String :=
  let s := pyStrip display
  if s = "" then "" else
  let s2 := pyReplace (pyReplace s "%" "") "," "."
  let sNum := pyStrip ⟨s2.data.filter pctKeepChar⟩
  if sNum = "" then "" else
  match parsePyFloat sNum with
  | none => ""
  | some val =>
    let raw := if 1 + 1 / 1000000000 < val then val / 100 else val
    let rawStr := rstripChar '.' (rstripChar '0' (fmtFixed 4 raw))
    if rawStr = "" then "0" else rawStr

/-- Embedding of space_raw_to_display (script.py 930-952). -/
def space_raw_to_display (raw : String) : String :=
  let s := pyStrip raw
  if s = "" then "" else
  let sNum := pyStrip (pyReplace ⟨s.data.filter spaceKeepChar⟩ "," ".")
  if sNum = "" then "" else
  match parsePyFloat sNum with
  | none => ""
  | some mm =>
    let mVal := mm / 1000
    let intM := pyRound mVal
    if |mVal - (intM : ℚ)| < 1 / 1000000 then intToString intM ++ "m"
    else rstripChar '.' (rstripChar '0' (fmtFixed 3 mVal)) ++ "m"

/-- Embedding of space_display_to_raw (script.py 955-975). -/
def space_display_to_raw (display : String) : String :=
  let s := pyLower (pyStrip display)
  if s = "" then "" else
  let s2 := pyReplace (pyReplace s "mm" "") "m" ""
  let sNum := pyStrip (pyReplace ⟨s2.data.filter spaceKeepChar⟩ "," ".")
  if sNum = "" then "" else
  match parsePyFloat sNum with
  | none => ""
  | some mVal => intToString (pyRound (mVal * 1000))

/-! ### Geometry model for src/Boundary.py

Points are rational triples; curves carry their endpoints, the host's
curve length, and the host's Evaluate map (an Option, since Evaluate is
called inside try/except).  Solid-modeling operations of the Revit
kernel (extrusions, booleans, curve-loop offsetting, raycasting) are
oracle functions bundled in GeomKernel / RayDoc: the scripts delegate
those computations to the host, so the embedding takes them as inputs. -/

structure XYZ where
  x : ℚ
  y : ℚ
  z : ℚ
deriving DecidableEq, Repr

/-- Difference of points (used for distance-to-centroid vectors). -/
def xyzSub (a b : XYZ) : XYZ := ⟨a.x - b.x, a.y - b.y, a.z - b.z⟩

/-- Sum of points (XYZ + XYZ in the host API). -/
def xyzAdd (a b : XYZ) : XYZ := ⟨a.x + b.x, a.y + b.y, a.z + b.z⟩

/-- Embedding of a Revit Curve: endpoints, host length
(ApproximateLength with Length as fallback), host Evaluate. -/
structure Curve where
  ep0 : XYZ
  ep1 : XYZ
  approxLength : ℚ
  eval : ℚ → Option XYZ

/-- A curve loop is its list of curves. -/
def CurveLoop := List Curve

/-- A Revit Solid, reduced to what Boundary.py reads from it: the
curves of its edges (each edge's AsCurve result). -/
structure Solid where
  edges : List Curve

/-- Vertical translation of a curve
(Curve.CreateTransformed with a (0,0,dz) translation). -/
def translateZ (dz : ℚ) (c : Curve) : Curve :=
  { ep0 := ⟨c.ep0.x, c.ep0.y, c.ep0.z + dz⟩
    ep1 := ⟨c.ep1.x, c.ep1.y, c.ep1.z + dz⟩
    approxLength := c.approxLength
    eval := fun t => (c.eval t).map (fun p => ⟨p.x, p.y, p.z + dz⟩) }

/-- Embedding of flatten_curve_to_view_z (Boundary.py 128-140). -/
def flatten_curve_to_view_z (c : Curve) (targetZ : ℚ) : Curve :=
  let deltaZ := targetZ - c.ep0.z
  if |deltaZ| < 1 / 1000000 then c else translateZ deltaZ c

/-- Host bounding box of an element. -/
structure BBox where
  bmin : XYZ
  bmax : XYZ
deriving DecidableEq, Repr

/-- A DB.Outline used for the bounding-box search region. -/
structure Outline where
  omin : XYZ
  omax : XYZ
deriving DecidableEq, Repr

/-- Semantics of BoundingBoxIntersectsFilter: the element box meets the
outline in all three axes. -/
def outlineIntersectsBBox (o : Outline) (b : BBox) : Bool :=
  decide (o.omin.x ≤ b.bmax.x) && decide (b.bmin.x ≤ o.omax.x) &&
  decide (o.omin.y ≤ b.bmax.y) && decide (b.bmin.y ≤ o.omax.y) &&
  decide (o.omin.z ≤ b.bmax.z) && decide (b.bmin.z ≤ o.omax.z)

/-- The data Boundary.py reads from a planting type (FamilySymbol):
lowered names are built from SYMBOL_NAME_PARAM, SYMBOL_FAMILY_NAME_PARAM
and the 'Scheduling Header' parameter; 'Spread' and 'Trunk Diameter'
are the valued type parameters (AsDouble, in feet) when present. -/
structure PlantSymbol where
  typeName : Option String
  familyName : Option String
  schedHeader : Option String
  spread : Option ℚ
  trunkDiameter : Option ℚ

/-- A planting FamilyInstance: its host bounding box (none models a
PassesFilter exception, which the code treats as passing), its location
point when the Location has one, and its type. -/
structure PlantInstance where
  bbox : Option BBox
  location : Option XYZ
  symbol : PlantSymbol

/-- Does the needle occur contiguously anywhere in the haystack? -/
def listContainsSub (needle : List Char) : List Char → Bool
  | [] => leadsWith needle []
  | c :: rest => leadsWith needle (c :: rest) || listContainsSub needle rest

/-- Embedding of is_tree_symbol (Boundary.py 304-316): the lowered type
name, family name and Scheduling Header are joined with spaces and
searched for the keyword 'tree'. -/
def is_tree_symbol (sym : PlantSymbol) : Bool :=
  let tname := pyLower (sym.typeName.getD "")
  let fname := pyLower (sym.familyName.getD "")
  let hdr := match sym.schedHeader with
    | some h => pyLower h
    | none => ""
  let s := tname ++ " " ++ fname ++ " " ++ hdr
  listContainsSub "tree".data s.data

/-- Tunables of Boundary.py (metres / millimetres / feet, exactly as in
the source; 0.3048 = 3048.0/10000). -/
def SEARCH_MARGIN_M : ℚ := 3 / 2

/-- PLANT_OFFSET_M = 0.20. -/
def PLANT_OFFSET_M : ℚ := 1 / 5

/-- FLOOR_OFFSET_MM = 5.0. -/
def FLOOR_OFFSET_MM : ℚ := 5

/-- TREE_EXTRA_DIAM_MM = 100.0. -/
def TREE_EXTRA_DIAM_MM : ℚ := 100

/-- FT_PER_M = 1.0 / 0.3048. -/
def FT_PER_M : ℚ := 1 / (3048 / 10000)

/-- Embedding of collect_plants (Boundary.py 319-378): non-tree
planting instances near the polygon, as (centre projected to floor_z,
radius) pairs with radius max(Spread/2, 0.05). -/
def collect_plants (plants : List PlantInstance) (polyPts : List XYZ)
    (searchMarginFt : ℚ) (floorZ : ℚ) : List (XYZ × ℚ) :=
  match polyPts with
  | [] => []
  | p0 :: rest =>
    let minx := rest.foldl (fun a q => min a q.x) p0.x
    let maxx := rest.foldl (fun a q => max a q.x) p0.x
    let miny := rest.foldl (fun a q => min a q.y) p0.y
    let maxy := rest.foldl (fun a q => max a q.y) p0.y
    let outline : Outline :=
      ⟨⟨minx - searchMarginFt, miny - searchMarginFt, floorZ - 1000⟩,
       ⟨maxx + searchMarginFt, maxy + searchMarginFt, floorZ + 1000⟩⟩
    plants.filterMap (fun inst =>
      if (match inst.bbox with
          | some b => outlineIntersectsBBox outline b
          | none => true) = false then none
      else
        match inst.location with
        | none => none
        | some rawCenter =>
          if is_tree_symbol inst.symbol then none
          else
            match inst.symbol.spread with
            | none => none
            | some diamFt =>
              some (⟨rawCenter.x, rawCenter.y, floorZ⟩, max (1 / 2 * diamFt) (1 / 20)))

/-- The host geometry-kernel operations Boundary.py delegates to,
as oracle functions; a none result models a host exception. -/
structure GeomKernel where
  buildDisc : XYZ → ℚ → Option Solid
  booleanUnion : Solid → Solid → Option Solid
  booleanDiff : Solid → Solid → Option Solid
  extrudeLoop : CurveLoop → Option Solid
  createViaOffset : CurveLoop → ℚ → XYZ → Option CurveLoop
  getLength : XYZ → ℚ

/-- Embedding of create_plant_area_boundary (Boundary.py 395-496).
Returns (created > 0, list of Area Boundary segments created); host
NewAreaBoundaryLine calls are modelled as succeeding. -/
def create_plant_area_boundary (K : GeomKernel) (plants : List PlantInstance)
    (outerLoop : CurveLoop) (targetZ : ℚ) : Bool × List Curve :=
  let polyPts := outerLoop.map (·.ep0)
  if polyPts.length < 3 then (false, []) else
  match polyPts with
  | [] => (false, [])
  | p0 :: _ =>
    let floorZ := p0.z
    let discs := collect_plants plants polyPts (SEARCH_MARGIN_M * FT_PER_M) floorZ
    if discs.isEmpty then (false, []) else
    let offFt := PLANT_OFFSET_M * FT_PER_M
    let unionSolid := discs.foldl (fun acc cr =>
      match K.buildDisc cr.1 (cr.2 + max 0 offFt) with
      | none => acc
      | some s =>
        match acc with
        | none => some s
        | some u =>
          match K.booleanUnion u s with
          | some u2 => some u2
          | none => some u) none
    match unionSolid with
    | none => (false, [])
    | some u =>
      match K.extrudeLoop outerLoop with
      | none => (false, [])
      | some polySolid =>
        match K.booleanDiff polySolid u with
        | none => (false, [])
        | some plantmix =>
          let zVals := plantmix.edges.flatMap (fun c => [c.ep0.z, c.ep1.z])
          match zVals with
          | [] => (false, [])
          | z0 :: zs =>
            let maxZ := zs.foldl max z0
            let zShift := targetZ - maxZ
            let segs := plantmix.edges.filterMap (fun c =>
              if |c.ep0.z - maxZ| < 1 / 1000000 && |c.ep1.z - maxZ| < 1 / 1000000 then
                let proj := translateZ zShift c
                if proj.approxLength < 1 / 48 then none else some proj
              else none)
            (!segs.isEmpty, segs)

/-- An Area Boundary arc drawn by draw_tree_trunks; the angles are in
multiples of pi (the two halves of a full circle are (0,1) and (1,2)). -/
structure BoundaryArc where
  center : XYZ
  radius : ℚ
  startAnglePi : ℚ
  endAnglePi : ℚ
deriving DecidableEq, Repr

/-- Loop body of draw_tree_trunks for one planting instance: the tree
test, the valued positive Trunk Diameter test, and the two created
half-circle arcs of diameter (Trunk Diameter + 100 mm). -/
def treeTrunkArcsFor (outline : Outline) (targetZ : ℚ) (inst : PlantInstance) :
    List BoundaryArc :=
  if (match inst.bbox with
      | some b => outlineIntersectsBBox outline b
      | none => true) = false then []
  else
    match inst.location with
    | none => []
    | some pt =>
      if !is_tree_symbol inst.symbol then []
      else
        match inst.symbol.trunkDiameter with
        | none => []
        | some diamFt =>
          if diamFt ≤ 0 then []
          else
            let extraDiamFt := TREE_EXTRA_DIAM_MM / (3048 / 10)
            let radiusFt := 1 / 2 * (diamFt + extraDiamFt)
            let center : XYZ := ⟨pt.x, pt.y, targetZ⟩
            [⟨center, radiusFt, 0, 1⟩, ⟨center, radiusFt, 1, 2⟩]

/-- Embedding of draw_tree_trunks (Boundary.py 501-588): the list of
Area Boundary arcs created (two per qualifying tree instance). -/
def draw_tree_trunks (plants : List PlantInstance) (outerLoop : CurveLoop)
    (targetZ : ℚ) : List BoundaryArc :=
  let polyPts := outerLoop.map (·.ep0)
  match polyPts with
  | [] => []
  | p0 :: rest =>
    let minx := rest.foldl (fun a q => min a q.x) p0.x
    let maxx := rest.foldl (fun a q => max a q.x) p0.x
    let miny := rest.foldl (fun a q => min a q.y) p0.y
    let maxy := rest.foldl (fun a q => max a q.y) p0.y
    let floorZ := p0.z
    let marginFt := SEARCH_MARGIN_M * FT_PER_M
    let outline : Outline :=
      ⟨⟨minx - marginFt, miny - marginFt, floorZ - 1000⟩,
       ⟨maxx + marginFt, maxy + marginFt, floorZ + 1000⟩⟩
    plants.flatMap (treeTrunkArcsFor outline targetZ)

/-! ### Offset-loop selection (Boundary.py 145-212, claim C3) -/

/-- Inner loop of _sample_points_on_curveloop for one curve: evaluate
at t = i/n for i = 0..n-1; on a host Evaluate exception append both
endpoints and stop (the Python break).  Structural fuel recursion,
started with fuel = n at i = 0. -/
def sampleCurveAux (crv : Curve) (n : ℕ) : ℕ → ℕ → List XYZ
  | 0, _ => []
  | fuel + 1, i =>
    match crv.eval ((i : ℚ) / (n : ℚ)) with
    | some pt => pt :: sampleCurveAux crv n fuel (i + 1)
    | none => [crv.ep0, crv.ep1]

/-- Embedding of _sample_points_on_curveloop (Boundary.py 145-157). -/
def sample_points_on_curveloop (curveloop : CurveLoop) (samplesPerCurve : ℕ) :
    List XYZ :=
  curveloop.flatMap (fun crv => sampleCurveAux crv samplesPerCurve samplesPerCurve 0)

/-- Embedding of _compute_centroid (Boundary.py 160-169). -/
def compute_centroid (points : List XYZ) : XYZ :=
  match points with
  | [] => ⟨0, 0, 0⟩
  | _ =>
    ⟨(points.map (·.x)).sum / points.length,
     (points.map (·.y)).sum / points.length,
     (points.map (·.z)).sum / points.length⟩

/-- Embedding of _average_radius (Boundary.py 172-180); the host's
XYZ.GetLength is the getLength oracle. -/
def average_radius (getLength : XYZ → ℚ) (curveloop : CurveLoop) (centroid : XYZ)
    (samplesPerCurve : ℕ) : ℚ :=
  let pts := sample_points_on_curveloop curveloop samplesPerCurve
  if pts.isEmpty then 0
  else (pts.map (fun p => getLength (xyzSub p centroid))).sum / pts.length

/-- Embedding of offset_loop_inwards (Boundary.py 183-212): try the
offset at +d and -d, keep the candidate with the smaller average
sampled distance from the original loop's centroid. -/
def offset_loop_inwards (K : GeomKernel) (curveloop : CurveLoop)
    (offsetDistFeet : ℚ) (normal : XYZ) (samplesPerCurve : ℕ) : CurveLoop :=
  let origPts := sample_points_on_curveloop curveloop samplesPerCurve
  let centroid := compute_centroid origPts
  let candidates :=
    (match K.createViaOffset curveloop offsetDistFeet normal with
     | some plus => [plus]
     | none => []) ++
    (match K.createViaOffset curveloop (-offsetDistFeet) normal with
     | some minus => [minus]
     | none => [])
  match candidates with
  | [] => curveloop
  | [cl] => cl
  | _ =>
    let best := candidates.foldl (fun acc cl =>
      let rad := average_radius K.getLength cl centroid samplesPerCurve
      match acc with
      | none => some (cl, rad)
      | some br => if rad < br.2 then some (cl, rad) else acc) none
    match best with
    | some br => br.1
    | none => curveloop

/-! ### Raycast floor lookup (Boundary.py 57-90, claim C7) -/

/-- A Revit 3D view, reduced to what the script reads. -/
structure View3D where
  isTemplate : Bool
  viewId : ℕ
deriving DecidableEq, Repr

/-- The result of ReferenceIntersector.FindNearest: the element id of
the nearest hit reference. -/
structure RayHit where
  elementId : ℕ
deriving DecidableEq, Repr

/-- The element filter handed to the ReferenceIntersector; the script
only ever builds ElementClassFilter(DB.Floor). -/
inductive RayFilter
  | floorClass
deriving DecidableEq, Repr

/-- A floor element (opaque beyond its id). -/
structure FloorElem where
  floorId : ℕ
deriving DecidableEq, Repr

/-- The document surface used by get_floor_below_point: the 3D views in
collector order, the host raycaster, and element lookup by id. -/
structure RayDoc where
  views3d : List View3D
  findNearest : RayFilter → View3D → XYZ → XYZ → Option RayHit
  getFloor : ℕ → FloorElem

/-- Embedding of get_any_3d_view (Boundary.py 57-63): the first
non-template 3D view. -/
def get_any_3d_view (doc : RayDoc) : Option View3D :=
  doc.views3d.find? (fun v => !v.isTemplate)

/-- Embedding of get_floor_below_point (Boundary.py 66-90): raycast
straight down from 10 ft above the picked point, floors only. -/
def get_floor_below_point (doc : RayDoc) (pickpoint : XYZ) : Option FloorElem :=
  match get_any_3d_view doc with
  | none => none
  | some view3d =>
    let origin : XYZ := xyzAdd pickpoint ⟨0, 0, 10⟩
    let direction : XYZ := ⟨0, 0, -1⟩
    match doc.findNearest RayFilter.floorClass view3d origin direction with
    | none => none
    | some result => some (doc.getFloor result.elementId)

/-! ### create_area_boundaries_from_floor (Boundary.py 593-709) -/

/-- A view of ViewType.AreaPlan, reduced to what the function reads:
GenLevel's elevation when the view has one, and the Z origin of the
view's sketch plane. -/
structure AreaPlanView where
  genLevelElevation : Option ℚ
  sketchPlaneOriginZ : ℚ

/-- Everything create_area_boundaries_from_floor draws: the plant
inverse segments, the tree-trunk arcs, and the offset floor-outline
segments (empty when a plant boundary was created); ok is the
function's return value. -/
structure BoundaryOutcome where
  ok : Bool
  plantSegs : List Curve
  treeArcs : List BoundaryArc
  outlineSegs : List Curve

/-- Python sum of a loop's ApproximateLength values. -/
def curveLoopLength (cl : CurveLoop) : ℚ := (cl.map (·.approxLength)).sum

/-- Embedding of create_area_boundaries_from_floor (Boundary.py
593-709).  topFaceLoops is get_top_planar_face + GetEdgesAsCurveLoops
(a host computation): none models a floor without a horizontal top
face.  Deletion of previously created mix boundaries is not modelled
(it only removes earlier output). -/
def create_area_boundaries_from_floor (K : GeomKernel)
    (plants : List PlantInstance) (view : AreaPlanView)
    (topFaceLoops : Option (List CurveLoop)) : BoundaryOutcome :=
  match topFaceLoops with
  | none => ⟨false, [], [], []⟩
  | some loops =>
    if loops.isEmpty then ⟨false, [], [], []⟩ else
    let sel := loops.foldl (fun acc cl =>
      let length := curveLoopLength cl
      if length > acc.2 then (some cl, length) else acc)
      ((none : Option CurveLoop), (0 : ℚ))
    match sel.1 with
    | none => ⟨false, [], [], []⟩
    | some outerLoop =>
      let polyPts := outerLoop.map (·.ep0)
      if polyPts.length < 3 then ⟨false, [], [], []⟩ else
      let targetZ :=
        match view.genLevelElevation with
        | some e => e
        | none => view.sketchPlaneOriginZ
      let hasPlant := create_plant_area_boundary K plants outerLoop targetZ
      let arcs := draw_tree_trunks plants outerLoop targetZ
      if hasPlant.1 then ⟨true, hasPlant.2, arcs, []⟩
      else
        let offsetDistFt := FLOOR_OFFSET_MM / (3048 / 10)
        let outline := loops.flatMap (fun cl =>
          (offset_loop_inwards K cl offsetDistFt ⟨0, 0, 1⟩ 6).map
            (fun crv => flatten_curve_to_view_z crv targetZ))
        ⟨true, hasPlant.2, arcs, outline⟩

/-! ### Transaction wrapping (claim C4)

The transactional document model: the work inside a transaction either
completes with a new document state or raises; Commit keeps the new
state, RollBack restores the state saved at Start.  Exceptions raised
midway are modelled by the Except value (the rolled-back state is by
definition the state at Start). -/

/-- Transaction lifecycle events, in order of occurrence. -/
inductive TxEvent
  | start
  | commit
  | rollback
deriving DecidableEq, Repr

/-- The composite work of Boundary.main's transaction (739-755):
create_area_boundaries_from_floor, then the Area placement whose
exceptions are caught by the inner try (753) and logged, so a failing
Area step still commits the boundary work. -/
def boundaryMainWork {D E : Type} (boundariesStep : D → Except E D)
    (areaStep : D → Except E D) (d : D) : Except E D :=
  match boundariesStep d with
  | .error e => .error e
  | .ok d2 =>
    match areaStep d2 with
    | .ok d3 => .ok d3
    | .error _ => .ok d2

/-- Embedding of Boundary.main (714-760): view-type check, point pick
(none = user cancelled), floor lookup, then one transaction around all
mutations; on an escaping exception the transaction is rolled back and
an alert dialog is shown.  Result: (document, transaction events,
alert shown). -/
def boundaryMain {D E : Type} (activeViewIsAreaPlan : Bool) (pick : Option XYZ)
    (floorFound : Bool) (work : D → Except E D) (doc : D) :
    D × List TxEvent × Bool :=
  if !activeViewIsAreaPlan then (doc, [], true)
  else
    match pick with
    | none => (doc, [], false)
    | some _ =>
      if !floorFound then (doc, [], true)
      else
        match work doc with
        | .ok d2 => (d2, [.start, .commit], false)
        | .error _ => (doc, [.start, .rollback], true)

/-- Embedding of MixWindowController.on_apply (script.py 2924-3024):
no work without mixes; otherwise one transaction around all parameter
writes, Area renames, colour-scheme updates and filled-region strips;
on an escaping exception the transaction is rolled back (inside its
own try) and forms.alert is shown.  Result: (document, transaction
events, alert shown). -/
def onApplyTx {D E : Type} (mixesEmpty : Bool) (body : D → Except E D) (doc : D) :
    D × List TxEvent × Bool :=
  if mixesEmpty then (doc, [], false)
  else
    match body doc with
    | .ok d2 => (d2, [.start, .commit], false)
    | .error _ => (doc, [.start, .rollback], true)

/-! ### Parameter storage model for src/script.py (claims C5, C10) -/

/-- Revit StorageType values. -/
inductive StorageType
  | noneT
  | integer
  | double
  | stringT
  | elementId
deriving DecidableEq, Repr

/-- The value stored in a parameter; non String/Integer/Double storage
keeps its value string. -/
inductive ParamValue
  | s : String → ParamValue
  | i : ℤ → ParamValue
  | d : ℚ → ParamValue
  | other : String → ParamValue
deriving DecidableEq, Repr

/-- A Revit parameter: its storage type, HasValue flag, stored value,
the host's AsValueString rendering (none = raised/null), and the
host's SetValueString parser (the stored value that would result; none
= the host raised). -/
structure Param where
  storage : StorageType
  hasValue : Bool
  value : ParamValue
  asValueString : Option String
  setValueStringResult : String → Option ParamValue

/-- An element: its named parameters (LookupParameter resolves the
first match; a missing name models both 'no such parameter' and a
raising LookupParameter). -/
structure Elem where
  params : List (String × Param)

/-- element.LookupParameter(name). -/
def lookupParam (e : Elem) (name : String) : Option Param :=
  (e.params.find? (fun kv => kv.1 == name)).map (·.2)

/-- Successful p.Set(...): store the value, the parameter now has one. -/
def updateParam (e : Elem) (name : String) (v : ParamValue) : Elem :=
  ⟨e.params.map (fun kv =>
    if kv.1 == name then (kv.1, { kv.2 with value := v, hasValue := true }) else kv)⟩

/-- A Python value as passed to set_param. -/
inductive PyVal
  | none
  | str : String → PyVal
  | int : ℤ → PyVal
  | float : ℚ → PyVal
deriving DecidableEq, Repr

/-- The test `value in (None, u'', '')`. -/
def pyValIsEmptyish : PyVal → Bool
  | .none => true
  | .str s => s = ""
  | _ => false

/-- Truncation of a rational toward zero (Python int() on a float). -/
def ratTruncate (q : ℚ) : ℤ := if 0 ≤ q then ⌊q⌋ else ⌈q⌉

/-- Python int(value); None is an error (int(None) raises). -/
def pyIntOfVal : PyVal → Option ℤ
  | .none => Option.none
  | .str s => parsePyInt s
  | .int n => some n
  | .float q => some (ratTruncate q)

/-- Python float(value). -/
def pyFloatOfVal : PyVal → Option ℚ
  | .none => Option.none
  | .str s => parsePyFloat s
  | .int n => some (n : ℚ)
  | .float q => some q

/-- Python str(value).  The exact repr of a float does not matter to
any claim (it only feeds the SetValueString oracle and the
comma-to-dot fallback, which the claims quantify over); a float is
rendered through '%.17f' with trailing zeros stripped. -/
def pyStrOfVal : PyVal → String
  | .none => "None"
  | .str s => s
  | .int n => intToString n
  | .float q => rstripChar '.' (rstripChar '0' (fmtFixed 17 q))

/-- Embedding of set_param (script.py 330-375). -/
def set_param (e : Elem) (name : String) (value : PyVal) : Elem :=
  match lookupParam e name with
  | Option.none => e
  | some p =>
    match p.storage with
    | .stringT =>
      -- p.Set(value if value is not None else u''); a non-string .NET
      -- value raises in Set, and the outer except leaves e unchanged
      match value with
      | .none => updateParam e name (.s "")
      | .str s => updateParam e name (.s s)
      | _ => e
    | .integer =>
      let ival : ℤ :=
        if pyValIsEmptyish value then 0
        else
          match pyIntOfVal value with
          | some n => n
          | Option.none => 0
      updateParam e name (.i ival)
    | .double =>
      let dval : ℚ :=
        if pyValIsEmptyish value then 0
        else
          match pyFloatOfVal value with
          | some q => q
          | Option.none =>
            match parsePyFloat (pyReplace (pyStrOfVal value) "," ".") with
            | some q => q
            | Option.none => 0
      updateParam e name (.d dval)
    | _ =>
      match p.setValueStringResult (pyStrOfVal value) with
      | some v => updateParam e name v
      | Option.none => e

/-- Embedding of get_param (script.py 306-327): a Python string or
None.  For a String parameter the stored string is returned; Integer
is rendered with str(); Double goes through AsValueString with
str(AsDouble()) as fallback; other storage returns AsValueString. -/
def get_param (e : Elem) (name : String) : Option String :=
  match lookupParam e name with
  | Option.none => Option.none
  | some p =>
    if !p.hasValue then Option.none
    else
      match p.storage with
      | .stringT =>
        match p.value with
        | .s s => some s
        | _ => some ""
      | .integer =>
        match p.value with
        | .i n => some (intToString n)
        | _ => some (intToString 0)
      | .double =>
        match p.asValueString with
        | some vs => some vs
        | Option.none =>
          match p.value with
          | .d q => some (pyStrOfVal (.float q))
          | _ => Option.none
      | _ => p.asValueString

/-! ### MixModel (script.py 981-1070, claim C10) -/

/-- MAX_SPECIES (script.py 69). -/
def MAX_SPECIES : ℕ := 15

/-- One species row of a mix (SpeciesRow, script.py 981-989); the
constructor's `x or u''` turns missing values into empty strings. -/
structure SpeciesRow where
  index : ℕ
  code : String
  pct : String
  spacing : String
  bot : String
  com : String
  grade : String
deriving DecidableEq, Repr

/-- Row parameter name S{i}_Code. -/
def paramSpeciesCode (i : ℕ) : String := "S" ++ natToString i ++ "_Code"

/-- Row parameter name S{i}_Pct. -/
def paramSpeciesPct (i : ℕ) : String := "S" ++ natToString i ++ "_Pct"

/-- Row parameter name S{i}_Space. -/
def paramSpeciesSpace (i : ℕ) : String := "S" ++ natToString i ++ "_Space"

/-- Row parameter name S{i}_Bot. -/
def paramSpeciesBot (i : ℕ) : String := "S" ++ natToString i ++ "_Bot"

/-- Row parameter name S{i}_Com. -/
def paramSpeciesCom (i : ℕ) : String := "S" ++ natToString i ++ "_Com"

/-- Row parameter name S{i}_Grade. -/
def paramSpeciesGrade (i : ℕ) : String := "S" ++ natToString i ++ "_Grade"

/-- One iteration of MixModel._load_rows (script.py 1033-1053). -/
def loadRow (e : Elem) (i : ℕ) : SpeciesRow :=
  let codeRaw := get_param e (paramSpeciesCode i)
  let pctRaw := get_param e (paramSpeciesPct i)
  let spaceRaw := get_param e (paramSpeciesSpace i)
  let bot := get_param e (paramSpeciesBot i)
  let com := get_param e (paramSpeciesCom i)
  let grade := get_param e (paramSpeciesGrade i)
  let pctDisplay := pct_raw_to_display (pctRaw.getD "")
  let spaceDisplay := space_raw_to_display (spaceRaw.getD "")
  ⟨i, codeRaw.getD "", pctDisplay, spaceDisplay, bot.getD "", com.getD "", grade.getD ""⟩

/-- The MixModel state the claims speak about. -/
structure MixModel where
  num_species : ℕ
  rows : List SpeciesRow
deriving DecidableEq, Repr

/-- Embedding of MixModel.__init__ (script.py 994-1017): parse
Num_Species (0 on missing/empty/unparsable), clamp into [0, 15], load
that many rows. -/
def mixModelInit (e : Elem) : MixModel :=
  let ns := get_param e "Num_Species"
  let n0 : ℤ :=
    match ns with
    | Option.none => 0
    | some s =>
      if s = "" then 0
      else
        match parsePyInt s with
        | some n => n
        | Option.none => 0
  let n1 : ℤ := if n0 < 0 then 0 else n0
  let n2 : ℤ := if n1 > (MAX_SPECIES : ℤ) then (MAX_SPECIES : ℤ) else n1
  let num := n2.toNat
  ⟨num, (List.range num).map (fun j => loadRow e (j + 1))⟩

/-- Embedding of MixModel.remove_row_at (script.py 1055-1062): bounds
check, delete, renumber the remaining rows from 1. -/
def MixModel.remove_row_at (m : MixModel) (index : ℤ) : MixModel :=
  if index < 0 || (m.rows.length : ℤ) ≤ index then m
  else
    let rows2 := (m.rows.eraseIdx index.toNat).mapIdx
      (fun idx row => { row with index := idx + 1 })
    ⟨rows2.length, rows2⟩

/-- Embedding of MixModel.add_row (script.py 1064-1070): refuse at
MAX_SPECIES, otherwise append a blank row numbered len+1. -/
def MixModel.add_row (m : MixModel) : MixModel :=
  if MAX_SPECIES ≤ m.rows.length then m
  else
    let newIndex := m.rows.length + 1
    let rows2 := m.rows ++ [⟨newIndex, "", "", "", "", "", ""⟩]
    ⟨rows2.length, rows2⟩

/-- Embedding of MixWindowController.on_add_row (script.py 2498-2506):
alert and refuse at MAX_SPECIES, otherwise delegate to add_row.
Returns (new model, alert shown). -/
def on_add_row (m : MixModel) : MixModel × Bool :=
  if MAX_SPECIES ≤ m.rows.length then (m, true) else (m.add_row, false)

/-- The MixModel invariant of claim C10. -/
def MixInv (m : MixModel) : Prop :=
  m.num_species = m.rows.length ∧ m.num_species ≤ MAX_SPECIES

/-! ### Colour-fill-scheme entry matching (claim C6) -/

/-- A Revit colour. -/
structure DBColor where
  red : ℕ
  green : ℕ
  blue : ℕ
deriving DecidableEq, Repr

/-- The storage type of a ColorFillSchemeEntry's value. -/
inductive EntryStorage
  | stringS
  | integerS
  | doubleS
  | otherS
deriving DecidableEq, Repr

/-- A ColorFillSchemeEntry, reduced to what the script reads: its
storage type, typed value readers (none = the host getter raised /
returned null; the double value is kept as the Python str() rendering
of the host double), the caption, and the colour _get_entry_color
finds on it. -/
structure ColorEntry where
  storage : EntryStorage
  stringValue : Option String
  intValue : Option ℤ
  doubleValueStr : Option String
  elementIdValue : Option ℤ
  caption : Option String
  color : Option DBColor

/-- Embedding of _get_color_entry_keys (script.py 437-480): the
stripped (value key, caption key) pair of an entry. -/
def get_color_entry_keys (entry : ColorEntry) : String × String :=
  let valKey :=
    match entry.storage with
    | .stringS => entry.stringValue.getD ""
    | .integerS =>
      match entry.intValue with
      | some n => intToString n
      | Option.none => ""
    | .doubleS => entry.doubleValueStr.getD ""
    | .otherS =>
      match entry.elementIdValue with
      | some eid => if eid = -1 then "" else intToString eid
      | Option.none => ""
  (pyStrip valKey, pyStrip (entry.caption.getD ""))

/-- Is a key already present in the association list? -/
def lookupHasKey (lookup : List (String × ColorEntry)) (k : String) : Bool :=
  (lookup.find? (fun kv => kv.1 == k)).isSome

/-- The mapping built by _load_color_entries (script.py 1333-1350):
for each entry, its value key then its caption key is inserted when
non-empty and not already mapped (dict 'key not in lookup'). -/
def buildColorLookup (entries : List ColorEntry) : List (String × ColorEntry) :=
  entries.foldl (fun lookup entry =>
    let keys := get_color_entry_keys entry
    let lookup2 :=
      if keys.1 ≠ "" && !lookupHasKey lookup keys.1 then
        lookup ++ [(keys.1, entry)]
      else lookup
    if keys.2 ≠ "" && !lookupHasKey lookup2 keys.2 then
      lookup2 ++ [(keys.2, entry)]
    else lookup2) []

/-- The colour-related state of a mix
(MixModel fields, script.py 1027-1031). -/
structure MixColorState where
  mix_name : String
  area_color_entry : Option ColorEntry
  area_color_dbcolor : Option DBColor
  area_color_new_dbcolor : Option DBColor

/-- Embedding of _attach_color_to_mix (script.py 1357-1386): exact
lookup of the trimmed mix name, then a trimmed case-insensitive scan;
on no match entry and colour stay None. -/
def attach_color_to_mix (schemePresent : Bool)
    (mapping : List (String × ColorEntry)) (mix : MixColorState) : MixColorState :=
  if !schemePresent || mapping.isEmpty then mix
  else
    let key := pyStrip mix.mix_name
    if key = "" then mix
    else
      let exact := (mapping.find? (fun kv => kv.1 == key)).map (·.2)
      let entry :=
        match exact with
        | some e => some e
        | Option.none =>
          let lk := pyLower key
          (mapping.find? (fun kv => pyLower (pyStrip kv.1) == lk)).map (·.2)
      { mix with
        area_color_entry := entry
        area_color_new_dbcolor := Option.none
        area_color_dbcolor :=
          match entry with
          | some e => e.color
          | Option.none => Option.none }

/-- Swatch interactivity (script.py 1768-1775): the click handler is
attached, and the swatch shown active, exactly when the mix has a
colour entry and a scheme was found. -/
def swatchIsEditable (schemePresent : Bool) (mix : MixColorState) : Bool :=
  mix.area_color_entry.isSome && schemePresent

/-! ### IEEE-754 binary64 model for the spacing conversions

The exact-rational conversions above idealize Python floats.  The
definitions below refine them: doubleRound maps a real (rational) value
to the nearest IEEE-754 binary64 value (round to nearest, ties to even,
53 significant bits), and the _fp conversions repeat space_raw_to_display
and space_display_to_raw with doubleRound applied at every step that
produces a float in the source. -/

/-- Fuel-driven floor of the base-2 logarithm (exact for fuel at least n). -/
def log2Aux (fuel n : ℕ) : ℕ :=
  match fuel with
  | 0 => 0
  | f + 1 => if 2 ≤ n then log2Aux f (n / 2) + 1 else 0

/-- Floor of the base-2 logarithm of a positive natural. -/
def natLog2 (n : ℕ) : ℕ := log2Aux n n

/-- The rational 2 ^ z for an integer exponent z. -/
def ratPow2 (z : ℤ) : ℚ :=
  if 0 ≤ z then ((2 ^ z.toNat : ℕ) : ℚ) else 1 / ((2 ^ (-z).toNat : ℕ) : ℚ)

/-- The largest e with 2 ^ e ≤ q, for positive rational q. -/
def exp2FloorPos (q : ℚ) : ℤ :=
  let e0 : ℤ := (natLog2 q.num.toNat : ℤ) - (natLog2 q.den : ℤ)
  if q < ratPow2 e0 then e0 - 1 else e0

/-- Rounding of a real (rational) value to the IEEE-754 binary64 grid:
round to nearest, ties to even, 53 significant bits.  The exponent is
not clamped, so the model agrees with binary64 on the whole normal
finite range; overflow and subnormal underflow, which the verified
statements never reach, are not modelled. -/
def doubleRound (q : ℚ) : ℚ :=
  if q.num = 0 then 0
  else
    let e := exp2FloorPos |q|
    let g := ratPow2 (e - 52)
    let n := roundHalfEvenNat (|q| / g)
    if q < 0 then -((n : ℚ) * g) else (n : ℚ) * g

/-- space_raw_to_display (script.py 930-952) under binary64 float
semantics: doubleRound is applied at every float-producing step of the
source (the float() parse, the division by 1000.0, the int-to-float
conversions around round(), the subtraction of the branch test, and
the 1e-6 literal itself). -/
def space_raw_to_display_fp (raw : String) : String :=
  let s := pyStrip raw
  if s = "" then "" else
  let sNum := pyStrip (pyReplace ⟨s.data.filter spaceKeepChar⟩ "," ".")
  if sNum = "" then "" else
  match parsePyFloat sNum with
  | none => ""
  | some mmLit =>
    let mm := doubleRound mmLit
    let mVal := doubleRound (mm / 1000)
    let intM := ratTruncate (doubleRound ((pyRound mVal : ℤ) : ℚ))
    let diff := doubleRound (mVal - doubleRound ((intM : ℤ) : ℚ))
    if |diff| < doubleRound (1 / 1000000) then intToString intM ++ "m"
    else rstripChar '.' (rstripChar '0' (fmtFixed 3 mVal)) ++ "m"

/-- space_display_to_raw (script.py 955-975) under binary64 float
semantics, with doubleRound applied at the float() parse, the
multiplication by 1000.0 and the int round. -/
def space_display_to_raw_fp (display : String) : String :=
  let s := pyLower (pyStrip display)
  if s = "" then "" else
  let s2 := pyReplace (pyReplace s "mm" "") "m" ""
  let sNum := pyStrip (pyReplace ⟨s2.data.filter spaceKeepChar⟩ "," ".")
  if sNum = "" then "" else
  match parsePyFloat sNum with
  | none => ""
  | some mLit =>
    let mVal := doubleRound mLit
    let mmVal := doubleRound (mVal * 1000)
    intToString (ratTruncate (doubleRound ((pyRound mmVal : ℤ) : ℚ)))

/-! ## Theorems

First a stack of helper lemmas about the decimal machinery, then one
theorem per claim. -/

theorem tenDigitsAux_eq_digits : ∀ fuel n, n ≤ fuel → tenDigitsAux fuel n = Nat.digits 10 n := by
  intro fuel
  induction fuel with
  | zero =>
    intro n hn
    interval_cases n
    simp [tenDigitsAux]
  | succ f ih =>
    intro n hn
    by_cases h0 : n = 0
    · subst h0; simp [tenDigitsAux]
    · have hpos : 0 < n := Nat.pos_of_ne_zero h0
      have hdiv : n / 10 < n := Nat.div_lt_self hpos (by norm_num)
      rw [Nat.digits_def' (by norm_num : (1:ℕ) < 10) hpos]
      show (if n = 0 then [] else n % 10 :: tenDigitsAux f (n / 10)) = _
      rw [if_neg h0, ih (n / 10) (by omega)]

theorem tenDigits_eq_digits (n : ℕ) : tenDigits n = Nat.digits 10 n :=
  tenDigitsAux_eq_digits n n le_rfl

theorem digitVal_digitChar {d : ℕ} (h : d < 10) : digitVal (digitChar d) = d := by
  interval_cases d <;> decide

theorem isDigit_digitChar {d : ℕ} (h : d < 10) : (digitChar d).isDigit = true := by
  interval_cases d <;> decide

theorem natToChars_mem {n : ℕ} {c : Char} (hc : c ∈ natToChars n) :
    ∃ d, d < 10 ∧ c = digitChar d := by
  unfold natToChars at hc
  split at hc
  · refine ⟨0, by norm_num, ?_⟩
    simpa using hc
  · rw [List.mem_map] at hc
    obtain ⟨d, hd, rfl⟩ := hc
    rw [List.mem_reverse, tenDigits_eq_digits] at hd
    exact ⟨d, Nat.digits_lt_base (by norm_num) hd, rfl⟩

theorem padDigits_mem {k n : ℕ} {c : Char} (hc : c ∈ padDigits k n) :
    ∃ d, d < 10 ∧ c = digitChar d := by
  unfold padDigits at hc
  rw [List.mem_append] at hc
  rcases hc with hc | hc
  · refine ⟨0, by norm_num, ?_⟩
    have := List.eq_of_mem_replicate hc
    simpa using this
  · rw [List.mem_map] at hc
    obtain ⟨d, hd, rfl⟩ := hc
    rw [List.mem_reverse, tenDigits_eq_digits] at hd
    exact ⟨d, Nat.digits_lt_base (by norm_num) hd, rfl⟩

theorem foldr_horner_digits :
    ∀ l : List ℕ, (∀ d ∈ l, d < 10) →
      l.foldr (fun d a => 10 * a + digitVal (digitChar d)) 0 = Nat.ofDigits 10 l := by
  intro l
  induction l with
  | nil => intro _; simp [Nat.ofDigits]
  | cons d t ih =>
    intro h
    have hd : d < 10 := h d (List.mem_cons_self d t)
    have ht := ih (fun x hx => h x (List.mem_cons_of_mem d hx))
    simp only [List.foldr_cons, Nat.ofDigits_cons, ht, digitVal_digitChar hd]
    ring

theorem natFromDigits_natToChars (n : ℕ) : natFromDigits (natToChars n) = n := by
  unfold natToChars
  split
  · rename_i h
    subst h
    decide
  · unfold natFromDigits
    rw [tenDigits_eq_digits, List.map_reverse, List.foldl_reverse, List.foldr_map]
    rw [foldr_horner_digits _ (fun d hd => Nat.digits_lt_base (by norm_num) hd)]
    exact Nat.ofDigits_digits 10 n

theorem natToChars_ne_nil (n : ℕ) : natToChars n ≠ [] := by
  unfold natToChars
  split
  · simp
  · rename_i h
    intro hcon
    have h2 : tenDigits n = [] := by
      have := congrArg List.length hcon
      simp at this
      simpa using this
    rw [tenDigits_eq_digits] at h2
    exact h (Nat.digits_eq_nil_iff_eq_zero.mp h2)

theorem natFromDigits_append (xs ys : List Char) :
    natFromDigits (xs ++ ys) =
      ys.foldl (fun a c => 10 * a + digitVal c) (natFromDigits xs) := by
  unfold natFromDigits
  rw [List.foldl_append]

theorem natFromDigits_snoc (xs : List Char) (c : Char) :
    natFromDigits (xs ++ [c]) = 10 * natFromDigits xs + digitVal c := by
  rw [natFromDigits_append]
  rfl

theorem natFromDigits_of_all_zero :
    ∀ {cs : List Char}, (∀ c ∈ cs, c = '0') → natFromDigits cs = 0 := by
  intro cs
  induction cs with
  | nil => intro _; rfl
  | cons c rest ih =>
    intro h
    have hc : c = '0' := h c (List.mem_cons_self c rest)
    subst hc
    have : natFromDigits ('0' :: rest) = natFromDigits rest := by
      unfold natFromDigits
      rfl
    rw [this]
    exact ih (fun x hx => h x (List.mem_cons_of_mem _ hx))

theorem natFromDigits_replicate_zero_append (k : ℕ) (ds : List Char) :
    natFromDigits (List.replicate k '0' ++ ds) = natFromDigits ds := by
  rw [natFromDigits_append]
  have h0 : natFromDigits (List.replicate k '0') = 0 :=
    natFromDigits_of_all_zero (fun c hc => List.eq_of_mem_replicate hc)
  rw [h0]
  rfl

theorem natFromDigits_padDigits (k n : ℕ) : natFromDigits (padDigits k n) = n := by
  unfold padDigits
  rw [natFromDigits_replicate_zero_append]
  by_cases h0 : n = 0
  · subst h0
    rw [tenDigits_eq_digits]
    simp [natFromDigits]
  · have : (tenDigits n).reverse.map digitChar = natToChars n := by
      unfold natToChars
      rw [if_neg h0]
    rw [this, natFromDigits_natToChars]

theorem padDigits_length {k n : ℕ} (h : n < 10 ^ k) : (padDigits k n).length = k := by
  unfold padDigits
  have hlen : ((tenDigits n).reverse.map digitChar).length = (Nat.digits 10 n).length := by
    simp [tenDigits_eq_digits]
  have hle : (Nat.digits 10 n).length ≤ k := by
    by_cases h0 : n = 0
    · subst h0; simp
    · have hlog : Nat.log 10 n < k := (Nat.lt_pow_iff_log_lt (by norm_num) h0).mp h
      rw [Nat.digits_len 10 n (by norm_num) h0]
      omega
  simp only [List.length_append, List.length_replicate, hlen]
  omega

theorem dropWhile_eq_self_of_all {α : Type} {p : α → Bool} :
    ∀ {cs : List α}, (∀ c ∈ cs, p c = false) → cs.dropWhile p = cs := by
  intro cs h
  cases cs with
  | nil => rfl
  | cons c rest =>
    rw [List.dropWhile_cons, h c (List.mem_cons_self c rest)]
    simp

theorem pyStripList_eq_self {cs : List Char} (h : ∀ c ∈ cs, pyIsSpace c = false) :
    pyStripList cs = cs := by
  unfold pyStripList
  rw [dropWhile_eq_self_of_all h,
    dropWhile_eq_self_of_all (fun c hc => h c (List.mem_reverse.mp hc)),
    List.reverse_reverse]

theorem dropWhile_append_of_ne_nil {α : Type} {p : α → Bool} {xs ys : List α}
    (h : xs.dropWhile p ≠ []) :
    (xs ++ ys).dropWhile p = xs.dropWhile p ++ ys := by
  have h2 : ¬((xs.dropWhile p).isEmpty = true) := by
    simp only [List.isEmpty_iff]
    exact h
  rw [List.dropWhile_append, if_neg h2]

theorem dropWhile_append_of_all {α : Type} {p : α → Bool} {xs ys : List α}
    (h : ∀ x ∈ xs, p x = true) :
    (xs ++ ys).dropWhile p = ys.dropWhile p := by
  have h2 : (xs.dropWhile p).isEmpty = true :=
    List.isEmpty_iff.mpr (List.dropWhile_eq_nil_iff.mpr h)
  rw [List.dropWhile_append, if_pos h2]

theorem takeWhile_append_of_all {α : Type} {p : α → Bool} {xs ys : List α}
    (h : ∀ x ∈ xs, p x = true) :
    (xs ++ ys).takeWhile p = xs ++ ys.takeWhile p := by
  rw [List.takeWhile_append]
  rw [if_pos]
  rw [List.takeWhile_eq_self_iff.mpr h]

theorem rstripList_eq_self_of_last_ne {ch : Char} {xs : List Char} {c : Char}
    (h : c ≠ ch) : rstripList ch (xs ++ [c]) = xs ++ [c] := by
  unfold rstripList
  rw [List.reverse_append]
  simp only [List.reverse_cons, List.reverse_nil, List.nil_append, List.singleton_append,
    List.dropWhile_cons]
  have : (c == ch) = false := by
    simp [h]
  rw [this]
  simp

theorem rstripList_append_of_all {ch : Char} {xs ys : List Char}
    (h : ∀ c ∈ ys, c = ch) : rstripList ch (xs ++ ys) = rstripList ch xs := by
  unfold rstripList
  rw [List.reverse_append, dropWhile_append_of_all]
  intro x hx
  simp [h x (List.mem_reverse.mp hx)]

theorem rstripList_append_of_ne_nil {ch : Char} {xs ys : List Char}
    (h : rstripList ch ys ≠ []) :
    rstripList ch (xs ++ ys) = xs ++ rstripList ch ys := by
  unfold rstripList at h ⊢
  have h2 : ys.reverse.dropWhile (· == ch) ≠ [] := by
    intro hcon
    rw [hcon] at h
    exact h rfl
  rw [List.reverse_append, dropWhile_append_of_ne_nil h2, List.reverse_append,
    List.reverse_reverse]

theorem rstripList_ne_nil_of_value {f : List Char}
    (hval : natFromDigits f ≠ 0) : rstripList '0' f ≠ [] := by
  intro hcon
  unfold rstripList at hcon
  have h2 : f.reverse.dropWhile (· == '0') = [] := by
    have := congrArg List.reverse hcon
    simpa using this
  have hall : ∀ c ∈ f, c = '0' := by
    intro c hc
    have := List.dropWhile_eq_nil_iff.mp h2 c (List.mem_reverse.mpr hc)
    simpa using this
  exact hval (natFromDigits_of_all_zero hall)

theorem rstripList_zero_value (f : List Char) :
    (natFromDigits (rstripList '0' f) : ℚ) / 10 ^ (rstripList '0' f).length =
      (natFromDigits f : ℚ) / 10 ^ f.length := by
  induction f using List.reverseRecOn with
  | nil => rfl
  | append_singleton g c ih =>
    by_cases hc : c = '0'
    · subst hc
      rw [rstripList_append_of_all (by simp), ih, natFromDigits_snoc]
      have : digitVal '0' = 0 := rfl
      rw [this]
      simp only [List.length_append, List.length_cons, List.length_nil]
      push_cast
      rw [pow_succ]
      field_simp
      ring
    · rw [rstripList_eq_self_of_last_ne hc]

theorem digitChar_facts {d : ℕ} (h : d < 10) :
    pyIsSpace (digitChar d) = false ∧ (digitChar d).isDigit = true ∧
    digitChar d ≠ '-' ∧ digitChar d ≠ '+' ∧ digitChar d ≠ '.' ∧
    digitChar d ≠ 'm' ∧ digitChar d ≠ ',' ∧ digitChar d ≠ '%' ∧
    Char.toLower (digitChar d) = digitChar d ∧
    pctKeepChar (digitChar d) = true ∧ spaceKeepChar (digitChar d) = true := by
  interval_cases d <;> exact ⟨rfl, rfl, by decide, by decide, by decide, by decide,
    by decide, by decide, rfl, rfl, rfl⟩

/-- Canonical digit-character hypothesis used below. -/
def IsDigitList (cs : List Char) : Prop :=
  ∀ c ∈ cs, ∃ d, d < 10 ∧ c = digitChar d

theorem isDigitList_natToChars (n : ℕ) : IsDigitList (natToChars n) :=
  fun _ hc => natToChars_mem hc

theorem isDigitList_padDigits (k n : ℕ) : IsDigitList (padDigits k n) :=
  fun _ hc => padDigits_mem hc

theorem isDigitList_append {xs ys : List Char} (hx : IsDigitList xs)
    (hy : IsDigitList ys) : IsDigitList (xs ++ ys) := by
  intro c hc
  rcases List.mem_append.mp hc with hc | hc
  · exact hx c hc
  · exact hy c hc

theorem isDigitList_rstrip {ch : Char} {cs : List Char} (h : IsDigitList cs) :
    IsDigitList (rstripList ch cs) := by
  intro c hc
  apply h
  unfold rstripList at hc
  rw [List.mem_reverse] at hc
  have := List.dropWhile_sublist (l := cs.reverse) (p := (· == ch))
  exact List.mem_reverse.mp (this.mem hc)

theorem isDigitList_all_isDigit {cs : List Char} (h : IsDigitList cs) :
    ∀ c ∈ cs, c.isDigit = true := by
  intro c hc
  obtain ⟨d, hd, rfl⟩ := h c hc
  exact (digitChar_facts hd).2.1

theorem parsePyFloatCore_digits {cs : List Char} (h1 : cs ≠ [])
    (h2 : IsDigitList cs) : parsePyFloatCore cs = some ((natFromDigits cs : ℚ)) := by
  have hall := isDigitList_all_isDigit h2
  have htake : cs.takeWhile Char.isDigit = cs := List.takeWhile_eq_self_iff.mpr hall
  have hdrop : cs.dropWhile Char.isDigit = [] := List.dropWhile_eq_nil_iff.mpr hall
  simp only [parsePyFloatCore, htake, hdrop, List.isEmpty_iff]
  rw [if_neg h1]

theorem parsePyFloatCore_point {a f : List Char} (ha : IsDigitList a)
    (hf : IsDigitList f) (hane : a ≠ []) :
    parsePyFloatCore (a ++ '.' :: f) =
      some ((natFromDigits a : ℚ) + (natFromDigits f : ℚ) / 10 ^ f.length) := by
  have halla := isDigitList_all_isDigit ha
  have hallf := isDigitList_all_isDigit hf
  have htake : (a ++ '.' :: f).takeWhile Char.isDigit = a := by
    rw [takeWhile_append_of_all halla, List.takeWhile_cons]
    simp
  have hdrop : (a ++ '.' :: f).dropWhile Char.isDigit = '.' :: f := by
    rw [dropWhile_append_of_all halla, List.dropWhile_cons]
    simp
  simp only [parsePyFloatCore, htake, hdrop]
  have hcond : (f.all Char.isDigit && (!a.isEmpty || !f.isEmpty)) = true := by
    have h1 : f.all Char.isDigit = true := List.all_eq_true.mpr hallf
    have h2 : a.isEmpty = false := by
      simp only [List.isEmpty_eq_false]
      exact hane
    rw [h1, h2]
    rfl
  rw [if_pos hcond]

theorem pyStripList_of_digitList {cs : List Char} (h : IsDigitList cs) :
    pyStripList cs = cs := by
  apply pyStripList_eq_self
  intro c hc
  obtain ⟨d, hd, rfl⟩ := h c hc
  exact (digitChar_facts hd).1

theorem replaceCharsAux_nil (pat repl : List Char) :
    ∀ fuel, replaceCharsAux pat repl fuel [] = [] := by
  intro fuel
  cases fuel <;> rfl

theorem replaceCharsAux_single_id {c : Char} {repl : List Char} :
    ∀ fuel (cs : List Char), (∀ x ∈ cs, x ≠ c) →
      replaceCharsAux [c] repl fuel cs = cs := by
  intro fuel
  induction fuel with
  | zero => intro cs _; rfl
  | succ f ih =>
    intro cs h
    cases cs with
    | nil => rfl
    | cons x rest =>
      have hx : (c == x) = false := by
        simp only [beq_eq_false_iff_ne]
        exact fun hcon => (h x (List.mem_cons_self x rest)) hcon.symm
      show (if ([c] ≠ [] && leadsWith [c] (x :: rest)) = true then _ else _) = _
      have hcond : ([c] ≠ [] && leadsWith [c] (x :: rest)) = false := by
        show (_ && (c == x && leadsWith [] rest)) = false
        rw [hx]
        simp
      rw [hcond]
      simp only [Bool.false_eq_true, if_false]
      rw [ih rest (fun y hy => h y (List.mem_cons_of_mem x hy))]

theorem replaceChars_single_id {c : Char} {repl cs : List Char}
    (h : ∀ x ∈ cs, x ≠ c) : replaceChars [c] repl cs = cs :=
  replaceCharsAux_single_id cs.length cs h

theorem replaceCharsAux_single_drop {c : Char} :
    ∀ fuel (cs : List Char), c ∉ cs → cs.length + 1 ≤ fuel →
      replaceCharsAux [c] [] fuel (cs ++ [c]) = cs := by
  intro fuel
  induction fuel with
  | zero => intro cs _ h2; omega
  | succ f ih =>
    intro cs h h2
    cases cs with
    | nil =>
      show (if ([c] ≠ [] && leadsWith [c] [c]) = true then _ else _) = _
      have hcond : ([c] ≠ [] && leadsWith [c] [c]) = true := by
        show (_ && (c == c && leadsWith [] [])) = true
        simp [leadsWith]
      rw [if_pos hcond]
      simp only [List.nil_append, List.drop]
      exact replaceCharsAux_nil _ _ _
    | cons x rest =>
      have hxc : x ≠ c := fun hcon => h (hcon ▸ List.mem_cons_self x rest)
      have hx : (c == x) = false := by
        simp only [beq_eq_false_iff_ne]
        exact fun hcon => hxc hcon.symm
      show (if ([c] ≠ [] && leadsWith [c] (x :: (rest ++ [c]))) = true then _ else _) = _
      have hcond : ([c] ≠ [] && leadsWith [c] (x :: (rest ++ [c]))) = false := by
        show (_ && (c == x && leadsWith [] (rest ++ [c]))) = false
        rw [hx]
        simp
      rw [hcond]
      simp only [Bool.false_eq_true, if_false]
      exact congrArg (x :: ·)
        (ih rest (fun hcon => h (List.mem_cons_of_mem x hcon)) (by simp at h2 ⊢; omega))

theorem replaceChars_single_drop {c : Char} {cs : List Char} (h : c ∉ cs) :
    replaceChars [c] [] (cs ++ [c]) = cs := by
  unfold replaceChars
  apply replaceCharsAux_single_drop _ cs h
  simp

theorem replaceCharsAux_double_id {c : Char} :
    ∀ fuel (cs : List Char), c ∉ cs →
      replaceCharsAux [c, c] [] fuel (cs ++ [c]) = cs ++ [c] := by
  intro fuel
  induction fuel with
  | zero => intro cs _; rfl
  | succ f ih =>
    intro cs h
    cases cs with
    | nil =>
      show (if ([c, c] ≠ [] && leadsWith [c, c] [c]) = true then _ else _) = _
      have hcond : ([c, c] ≠ [] && leadsWith [c, c] [c]) = false := by
        show (_ && (c == c && leadsWith [c] [])) = false
        show (_ && (c == c && false)) = false
        simp
      rw [hcond]
      simp only [Bool.false_eq_true, if_false, List.nil_append]
      rw [replaceCharsAux_nil]
    | cons x rest =>
      have hxc : x ≠ c := fun hcon => h (hcon ▸ List.mem_cons_self x rest)
      have hx : (c == x) = false := by
        simp only [beq_eq_false_iff_ne]
        exact fun hcon => hxc hcon.symm
      show (if ([c, c] ≠ [] && leadsWith [c, c] (x :: (rest ++ [c]))) = true then _ else _) = _
      have hcond : ([c, c] ≠ [] && leadsWith [c, c] (x :: (rest ++ [c]))) = false := by
        show (_ && (c == x && leadsWith [c] (rest ++ [c]))) = false
        rw [hx]
        simp
      rw [hcond]
      simp only [Bool.false_eq_true, if_false]
      exact congrArg (x :: ·) (ih rest (fun hcon => h (List.mem_cons_of_mem x hcon)))

theorem replaceChars_double_id {c : Char} {cs : List Char} (h : c ∉ cs) :
    replaceChars [c, c] [] (cs ++ [c]) = cs ++ [c] :=
  replaceCharsAux_double_id _ cs h

theorem map_id_of_all {α : Type} {f : α → α} :
    ∀ {cs : List α}, (∀ c ∈ cs, f c = c) → cs.map f = cs := by
  intro cs
  induction cs with
  | nil => intro _; rfl
  | cons c rest ih =>
    intro h
    simp only [List.map_cons, h c (List.mem_cons_self c rest),
      ih (fun x hx => h x (List.mem_cons_of_mem c hx))]

theorem parsePyFloat_mk_digits {cs : List Char} (h1 : cs ≠ [])
    (h2 : IsDigitList cs) : parsePyFloat ⟨cs⟩ = some ((natFromDigits cs : ℚ)) := by
  obtain ⟨c, t, rfl⟩ : ∃ c t, cs = c :: t := by
    cases cs with
    | nil => exact absurd rfl h1
    | cons c t => exact ⟨c, t, rfl⟩
  obtain ⟨d, hd, hc⟩ := h2 c (List.mem_cons_self c t)
  unfold parsePyFloat
  have hstrip : pyStripList (String.mk (c :: t)).data = c :: t :=
    pyStripList_of_digitList h2
  rw [hstrip]
  split
  · rename_i rest heq
    rw [List.cons.injEq] at heq
    exact absurd (hc ▸ heq.1) ((digitChar_facts hd).2.2.1)
  · rename_i rest heq
    rw [List.cons.injEq] at heq
    exact absurd (hc ▸ heq.1) ((digitChar_facts hd).2.2.2.1)
  · exact parsePyFloatCore_digits h1 h2

theorem isDigitList_point_not_space {a f : List Char} (ha : IsDigitList a)
    (hf : IsDigitList f) : ∀ c ∈ a ++ '.' :: f, pyIsSpace c = false := by
  intro c hc
  rcases List.mem_append.mp hc with hc | hc
  · obtain ⟨d, hd, rfl⟩ := ha c hc
    exact (digitChar_facts hd).1
  · rcases List.mem_cons.mp hc with rfl | hc
    · decide
    · obtain ⟨d, hd, rfl⟩ := hf c hc
      exact (digitChar_facts hd).1

theorem parsePyFloat_mk_point {a f : List Char} (ha : IsDigitList a)
    (hf : IsDigitList f) (hane : a ≠ []) :
    parsePyFloat ⟨a ++ '.' :: f⟩ =
      some ((natFromDigits a : ℚ) + (natFromDigits f : ℚ) / 10 ^ f.length) := by
  obtain ⟨c, t, rfl⟩ : ∃ c t, a = c :: t := by
    cases a with
    | nil => exact absurd rfl hane
    | cons c t => exact ⟨c, t, rfl⟩
  obtain ⟨d, hd, hc⟩ := ha c (List.mem_cons_self c t)
  unfold parsePyFloat
  have hstrip : pyStripList (String.mk ((c :: t) ++ '.' :: f)).data = (c :: t) ++ '.' :: f :=
    pyStripList_eq_self (isDigitList_point_not_space ha hf)
  rw [hstrip]
  have hsplit : (c :: t) ++ '.' :: f = c :: (t ++ '.' :: f) := rfl
  rw [hsplit]
  split
  · rename_i rest heq
    rw [List.cons.injEq] at heq
    exact absurd (hc ▸ heq.1) ((digitChar_facts hd).2.2.1)
  · rename_i rest heq
    rw [List.cons.injEq] at heq
    exact absurd (hc ▸ heq.1) ((digitChar_facts hd).2.2.2.1)
  · exact parsePyFloatCore_point ha hf hane

theorem ratFloor_eq_intFloor (q : ℚ) : q.floor = ⌊q⌋ := by
  rw [Rat.floor_def' q, Rat.floor_def]

theorem roundHalfEvenNat_natCast (m : ℕ) : roundHalfEvenNat (m : ℚ) = m := by
  unfold roundHalfEvenNat
  rw [ratFloor_eq_intFloor]
  have h1 : ⌊(m : ℚ)⌋ = (m : ℤ) := Int.floor_natCast m
  rw [h1]
  have h2 : (m : ℚ) - ((m : ℤ) : ℚ) = 0 := by push_cast; ring
  rw [h2, if_pos (by norm_num : (0:ℚ) < 1/2)]
  simp

theorem pyRound_natCast (m : ℕ) : pyRound (m : ℚ) = (m : ℤ) := by
  unfold pyRound
  rw [if_pos (by positivity : (0:ℚ) ≤ (m:ℚ))]
  have : (m : ℚ) + 1 / 2 = ((m : ℤ) : ℚ) + 1 / 2 := by push_cast; ring
  rw [this, Int.floor_int_add]
  norm_num

theorem fmtFixed_div_pow (k m : ℕ) (hk : k ≠ 0) :
    fmtFixed k ((m : ℚ) / 10 ^ k) =
      ⟨natToChars (m / 10 ^ k) ++ '.' :: padDigits k (m % 10 ^ k)⟩ := by
  have hq : (0:ℚ) ≤ (m:ℚ) / 10 ^ k := by positivity
  unfold fmtFixed
  have habs : |(m:ℚ) / 10 ^ k| = (m:ℚ) / 10 ^ k := abs_of_nonneg hq
  have hmul : (m:ℚ) / 10 ^ k * 10 ^ k = (m:ℚ) := by
    field_simp
  rw [habs, hmul, roundHalfEvenNat_natCast]
  simp only [if_neg hk, if_neg (not_lt.mpr hq)]

theorem mkStr_ne_empty {cs : List Char} (h : cs ≠ []) : (⟨cs⟩ : String) ≠ "" :=
  fun hcon => h (congrArg String.data hcon)

theorem rstripList_eq_self_of_all_ne {ch : Char} {cs : List Char}
    (h : ∀ c ∈ cs, c ≠ ch) : rstripList ch cs = cs := by
  unfold rstripList
  rw [dropWhile_eq_self_of_all, List.reverse_reverse]
  intro c hc
  simp only [beq_eq_false_iff_ne]
  exact h c (List.mem_reverse.mp hc)

theorem intToString_natCast (m : ℕ) : intToString (m : ℤ) = natToString m := by
  unfold intToString natToString
  rw [if_neg (by omega : ¬((m:ℤ) < 0)), Int.natAbs_ofNat]

/-! ### Lemmas about the binary64 rounding model -/

theorem log2Aux_spec : ∀ fuel n, 1 ≤ n → n ≤ fuel →
    2 ^ log2Aux fuel n ≤ n ∧ n < 2 ^ (log2Aux fuel n + 1) := by
  intro fuel
  induction fuel with
  | zero => intro n h1 h2; omega
  | succ f ih =>
    intro n h1 h2
    show 2 ^ (log2Aux (f + 1) n) ≤ n ∧ n < 2 ^ (log2Aux (f + 1) n + 1)
    by_cases h2n : 2 ≤ n
    · have hrec := ih (n / 2) (by omega) (by omega)
      have hstep : log2Aux (f + 1) n = log2Aux f (n / 2) + 1 := by
        show (if 2 ≤ n then log2Aux f (n / 2) + 1 else 0) = _
        rw [if_pos h2n]
      rw [hstep]
      obtain ⟨hA, hB⟩ := hrec
      constructor
      · rw [pow_succ]
        omega
      · rw [pow_succ, pow_succ] at *
        omega
    · have hstep : log2Aux (f + 1) n = 0 := by
        show (if 2 ≤ n then log2Aux f (n / 2) + 1 else 0) = _
        rw [if_neg h2n]
      rw [hstep]
      simp only [pow_zero, pow_one]
      omega

theorem natLog2_spec {n : ℕ} (h : 1 ≤ n) :
    2 ^ natLog2 n ≤ n ∧ n < 2 ^ (natLog2 n + 1) :=
  log2Aux_spec n n h le_rfl

theorem ratPow2_eq_zpow (z : ℤ) : ratPow2 z = (2 : ℚ) ^ z := by
  by_cases h : 0 ≤ z
  · rw [ratPow2, if_pos h]
    conv_rhs => rw [show z = ((z.toNat : ℕ) : ℤ) by omega]
    rw [zpow_natCast]
    push_cast
    ring
  · rw [ratPow2, if_neg h]
    conv_rhs => rw [show z = -(((-z).toNat : ℕ) : ℤ) by omega]
    rw [zpow_neg, zpow_natCast]
    push_cast
    rw [one_div]

theorem ratPow2_pos (z : ℤ) : 0 < ratPow2 z := by
  rw [ratPow2_eq_zpow]
  positivity

theorem ratPow2_add (a b : ℤ) : ratPow2 (a + b) = ratPow2 a * ratPow2 b := by
  rw [ratPow2_eq_zpow, ratPow2_eq_zpow, ratPow2_eq_zpow]
  exact zpow_add₀ (by norm_num) a b

theorem ratPow2_mono {a b : ℤ} (h : a ≤ b) : ratPow2 a ≤ ratPow2 b := by
  rw [ratPow2_eq_zpow, ratPow2_eq_zpow]
  exact zpow_le_zpow_right₀ (by norm_num) h

theorem ratPow2_lt_reflect {a b : ℤ} (h : ratPow2 a < ratPow2 b) : a < b := by
  by_contra hcon
  exact absurd (ratPow2_mono (by omega : b ≤ a)) (not_le.mpr h)

theorem ratPow2_natCast (k : ℕ) : ratPow2 (k : ℤ) = ((2 ^ k : ℕ) : ℚ) := by
  unfold ratPow2
  rw [if_pos (by omega : (0:ℤ) ≤ (k:ℤ)), Int.toNat_natCast]

theorem ratPow2_natCast_sub (x y : ℕ) :
    ratPow2 ((x : ℤ) - (y : ℤ)) = ((2 ^ x : ℕ) : ℚ) / ((2 ^ y : ℕ) : ℚ) := by
  rw [ratPow2_eq_zpow, zpow_sub₀ (by norm_num : (2:ℚ) ≠ 0), zpow_natCast, zpow_natCast]
  push_cast
  ring

theorem exp2FloorPos_spec {q : ℚ} (h : 0 < q) :
    ratPow2 (exp2FloorPos q) ≤ q ∧ q < ratPow2 (exp2FloorPos q + 1) := by
  have hnum : 0 < q.num := Rat.num_pos.mpr h
  have ha : 1 ≤ q.num.toNat := by omega
  have hb : 1 ≤ q.den := q.pos
  obtain ⟨hA1, hA2⟩ := natLog2_spec ha
  obtain ⟨hB1, hB2⟩ := natLog2_spec hb
  set La := natLog2 q.num.toNat with hLa
  set Lb := natLog2 q.den with hLb
  have hqeq : q = ((q.num.toNat : ℕ) : ℚ) / ((q.den : ℕ) : ℚ) := by
    have hc : ((q.num.toNat : ℕ) : ℚ) = ((q.num : ℤ) : ℚ) := by
      exact_mod_cast (by omega : (q.num.toNat : ℤ) = q.num)
    rw [hc]
    exact (Rat.num_div_den q).symm
  have hdenpos : (0:ℚ) < ((q.den : ℕ) : ℚ) := by exact_mod_cast hb
  have hupper : q < ratPow2 ((La : ℤ) + 1 - (Lb : ℤ)) := by
    have hz : ((La : ℤ) + 1 - (Lb : ℤ)) = ((La + 1 : ℕ) : ℤ) - ((Lb : ℕ) : ℤ) := by
      push_cast
      ring
    rw [hz, ratPow2_natCast_sub, hqeq]
    rw [div_lt_div_iff hdenpos (by positivity)]
    have h1 : (q.num.toNat : ℚ) * ((2 ^ Lb : ℕ) : ℚ) <
        ((2 ^ (La + 1) : ℕ) : ℚ) * ((q.den : ℕ) : ℚ) := by
      have hx : q.num.toNat * 2 ^ Lb < 2 ^ (La + 1) * q.den :=
        lt_of_lt_of_le ((Nat.mul_lt_mul_right (by positivity)).mpr hA2)
          (Nat.mul_le_mul_left _ hB1)
      exact_mod_cast hx
    exact h1
  have hlower : ratPow2 ((La : ℤ) - (Lb : ℤ) - 1) < q := by
    have hz : ((La : ℤ) - (Lb : ℤ) - 1) = ((La : ℕ) : ℤ) - ((Lb + 1 : ℕ) : ℤ) := by
      push_cast
      ring
    rw [hz, ratPow2_natCast_sub, hqeq]
    rw [div_lt_div_iff (by positivity) hdenpos]
    have h1 : ((2 ^ La : ℕ) : ℚ) * ((q.den : ℕ) : ℚ) <
        ((q.num.toNat : ℕ) : ℚ) * ((2 ^ (Lb + 1) : ℕ) : ℚ) := by
      have hx : 2 ^ La * q.den < q.num.toNat * 2 ^ (Lb + 1) :=
        lt_of_lt_of_le ((Nat.mul_lt_mul_left (by positivity)).mpr hB2)
          (Nat.mul_le_mul_right _ hA1)
      exact_mod_cast hx
    exact h1
  unfold exp2FloorPos
  set e0 : ℤ := ((natLog2 q.num.toNat : ℕ) : ℤ) - ((natLog2 q.den : ℕ) : ℤ) with he0
  by_cases hc : q < ratPow2 e0
  · rw [if_pos hc]
    constructor
    · have hz : e0 - 1 = (La : ℤ) - (Lb : ℤ) - 1 := by rw [he0, ← hLa, ← hLb]
      rw [hz]
      exact le_of_lt hlower
    · have hz : e0 - 1 + 1 = e0 := by ring
      rw [hz]
      exact hc
  · rw [if_neg hc]
    constructor
    · exact not_lt.mp hc
    · have hz : e0 + 1 = (La : ℤ) + 1 - (Lb : ℤ) := by rw [he0, ← hLa, ← hLb]; ring
      rw [hz]
      exact hupper

theorem roundHalfEvenNat_close {q : ℚ} {n : ℕ} (hq : 0 ≤ q)
    (h : |q - (n : ℚ)| < 1 / 2) : roundHalfEvenNat q = n := by
  rw [abs_lt] at h
  obtain ⟨hlo, hhi⟩ := h
  unfold roundHalfEvenNat
  rw [ratFloor_eq_intFloor]
  rcases le_or_lt ((n : ℚ)) q with hnq | hqn
  · have hfl : ⌊q⌋ = (n : ℤ) := by
      rw [Int.floor_eq_iff]
      constructor
      · exact_mod_cast hnq
      · push_cast
        linarith
    rw [hfl]
    have hr : q - ((n : ℤ) : ℚ) < 1 / 2 := by push_cast; linarith
    rw [if_pos hr]
    simp
  · have hn1 : 1 ≤ n := by
      by_contra hcon
      have hz : n = 0 := by omega
      subst hz
      simp only [Nat.cast_zero] at hqn
      linarith
    have hfl : ⌊q⌋ = (n : ℤ) - 1 := by
      rw [Int.floor_eq_iff]
      constructor
      · push_cast
        linarith
      · push_cast
        linarith
    rw [hfl]
    have hr1 : ¬(q - (((n : ℤ) - 1 : ℤ) : ℚ) < 1 / 2) := by push_cast; linarith
    have hr2 : 1 / 2 < q - (((n : ℤ) - 1 : ℤ) : ℚ) := by push_cast; linarith
    rw [if_neg hr1, if_pos hr2]
    omega

theorem roundHalfEvenNat_err {q : ℚ} (hq : 0 ≤ q) :
    |(roundHalfEvenNat q : ℚ) - q| ≤ 1 / 2 := by
  unfold roundHalfEvenNat
  rw [ratFloor_eq_intFloor]
  have hf0 : 0 ≤ ⌊q⌋ := Int.floor_nonneg.mpr hq
  have hcast : ((⌊q⌋.toNat : ℕ) : ℚ) = ((⌊q⌋ : ℤ) : ℚ) := by
    exact_mod_cast Int.toNat_of_nonneg hf0
  have hle : ((⌊q⌋ : ℤ) : ℚ) ≤ q := Int.floor_le q
  have hlt : q < ((⌊q⌋ : ℤ) : ℚ) + 1 := Int.lt_floor_add_one q
  by_cases h1 : q - ((⌊q⌋ : ℤ) : ℚ) < 1 / 2
  · rw [if_pos h1, hcast, abs_le]
    constructor <;> linarith
  · rw [if_neg h1]
    by_cases h2 : 1 / 2 < q - ((⌊q⌋ : ℤ) : ℚ)
    · rw [if_pos h2]
      rw [abs_le]
      push_cast [hcast]
      constructor <;> linarith
    · rw [if_neg h2]
      have heq : q - ((⌊q⌋ : ℤ) : ℚ) = 1 / 2 := by linarith
      by_cases h3 : ⌊q⌋.toNat % 2 = 0
      · rw [if_pos h3, hcast, abs_le]
        constructor <;> linarith
      · rw [if_neg h3, abs_le]
        push_cast [hcast]
        constructor <;> linarith

theorem pyRound_close {q : ℚ} {n : ℤ} (h : |q - (n : ℚ)| < 1 / 2) :
    pyRound q = n := by
  rw [abs_lt] at h
  obtain ⟨hlo, hhi⟩ := h
  unfold pyRound
  by_cases h0 : 0 ≤ q
  · rw [if_pos h0]
    rw [Int.floor_eq_iff]
    constructor
    · linarith
    · push_cast
      linarith
  · rw [if_neg h0]
    have hz : ⌊-q + 1 / 2⌋ = -n := by
      rw [Int.floor_eq_iff]
      constructor
      · push_cast
        linarith
      · push_cast
        linarith
    rw [hz]
    ring

theorem pyRound_err (q : ℚ) : |(pyRound q : ℚ) - q| ≤ 1 / 2 := by
  unfold pyRound
  by_cases h0 : 0 ≤ q
  · rw [if_pos h0]
    have hle : ((⌊q + 1/2⌋ : ℤ) : ℚ) ≤ q + 1/2 := Int.floor_le _
    have hlt : q + 1/2 < ((⌊q + 1/2⌋ : ℤ) : ℚ) + 1 := Int.lt_floor_add_one _
    rw [abs_le]
    constructor <;> linarith
  · rw [if_neg h0]
    have hle : ((⌊-q + 1/2⌋ : ℤ) : ℚ) ≤ -q + 1/2 := Int.floor_le _
    have hlt : -q + 1/2 < ((⌊-q + 1/2⌋ : ℤ) : ℚ) + 1 := Int.lt_floor_add_one _
    rw [abs_le]
    push_cast
    constructor <;> linarith

theorem pyRound_nonneg {q : ℚ} (h : 0 ≤ q) : 0 ≤ pyRound q := by
  unfold pyRound
  rw [if_pos h]
  exact Int.floor_nonneg.mpr (by linarith)

theorem ratTruncate_intCast (z : ℤ) : ratTruncate ((z : ℚ)) = z := by
  unfold ratTruncate
  by_cases h : (0:ℚ) ≤ (z : ℚ)
  · rw [if_pos h, Int.floor_intCast]
  · rw [if_neg h, Int.ceil_intCast]

theorem doubleRound_zero : doubleRound 0 = 0 := by
  unfold doubleRound
  rw [if_pos Rat.num_zero]

theorem doubleRound_err_of_lt {q : ℚ} {E : ℤ} (h : |q| < ratPow2 (E + 1)) :
    |doubleRound q - q| ≤ ratPow2 (E - 53) := by
  by_cases hq0 : q = 0
  · subst hq0
    rw [doubleRound_zero]
    simp only [sub_zero, abs_zero]
    exact le_of_lt (ratPow2_pos _)
  · have habs : 0 < |q| := abs_pos.mpr hq0
    set aq := |q| with haq
    obtain ⟨hE1, hE2⟩ := exp2FloorPos_spec habs
    set e := exp2FloorPos aq with he
    have heE : e ≤ E := by
      have hr := ratPow2_lt_reflect (lt_of_le_of_lt hE1 h)
      omega
    set g := ratPow2 (e - 52) with hg
    have hgpos : 0 < g := ratPow2_pos _
    have hr0 : 0 ≤ aq / g := by positivity
    have herr := roundHalfEvenNat_err hr0
    set n := roundHalfEvenNat (aq / g) with hn
    have hkey : |(n : ℚ) * g - aq| ≤ g / 2 := by
      have h1 : (n : ℚ) * g - aq = ((n : ℚ) - aq / g) * g := by
        field_simp
      rw [h1, abs_mul, abs_of_pos hgpos]
      calc |(n : ℚ) - aq / g| * g ≤ (1 / 2) * g :=
            mul_le_mul_of_nonneg_right herr (le_of_lt hgpos)
        _ = g / 2 := by ring
    have hg2 : g / 2 = ratPow2 (e - 53) := by
      have ha : (e - 53) + 1 = e - 52 := by ring
      have h2 := ratPow2_add (e - 53) 1
      have h3 : ratPow2 1 = 2 := by
        rw [ratPow2_eq_zpow]
        norm_num
      rw [ha, h3] at h2
      rw [hg, h2]
      ring
    have hmono : ratPow2 (e - 53) ≤ ratPow2 (E - 53) := ratPow2_mono (by omega)
    have hfin : |(n : ℚ) * g - aq| ≤ ratPow2 (E - 53) := by
      calc |(n : ℚ) * g - aq| ≤ g / 2 := hkey
        _ = ratPow2 (e - 53) := hg2
        _ ≤ ratPow2 (E - 53) := hmono
    have hq0n : ¬(q.num = 0) := fun hnn => hq0 (Rat.num_eq_zero.mp hnn)
    simp only [doubleRound]
    rw [if_neg hq0n, ← haq, ← he, ← hg, ← hn]
    by_cases hneg : q < 0
    · rw [if_pos hneg]
      have habsq : aq = -q := by rw [haq]; exact abs_of_neg hneg
      have hrw : -((n : ℚ) * g) - q = -((n : ℚ) * g - aq) := by
        rw [habsq]
        ring
      rw [hrw, abs_neg]
      exact hfin
    · rw [if_neg hneg]
      have habsq : aq = q := by rw [haq]; exact abs_of_nonneg (not_lt.mp hneg)
      have hrw : (n : ℚ) * g - q = (n : ℚ) * g - aq := by rw [habsq]
      rw [hrw]
      exact hfin

theorem doubleRound_nat {n : ℕ} (h : n < 2 ^ 53) : doubleRound ((n : ℚ)) = (n : ℚ) := by
  by_cases h0 : n = 0
  · subst h0
    simpa using doubleRound_zero
  · have hpos : (0:ℚ) < (n : ℚ) := by exact_mod_cast Nat.pos_of_ne_zero h0
    have hne0 : ¬(((n : ℚ)).num = 0) := fun hn =>
      (ne_of_gt hpos) (Rat.num_eq_zero.mp hn)
    have hnlt : ¬((n : ℚ) < 0) := not_lt.mpr (le_of_lt hpos)
    have habs : |(n : ℚ)| = (n : ℚ) := abs_of_pos hpos
    obtain ⟨hE1, hE2⟩ := exp2FloorPos_spec (show (0:ℚ) < |(n:ℚ)| by rw [habs]; exact hpos)
    set e := exp2FloorPos |(n : ℚ)| with he
    have he52 : e ≤ 52 := by
      have hlt : ratPow2 e < ratPow2 53 := by
        apply lt_of_le_of_lt hE1
        rw [habs, show (53 : ℤ) = ((53 : ℕ) : ℤ) by norm_num, ratPow2_natCast]
        exact_mod_cast h
      have hr := ratPow2_lt_reflect hlt
      omega
    set t := (52 - e).toNat with ht
    have hgpos := ratPow2_pos (e - 52)
    have h2t : ((2:ℚ) ^ t) = ratPow2 ((t : ℤ)) := by
      rw [ratPow2_natCast]
      push_cast
      ring
    have hginv : ratPow2 ((t : ℤ)) * ratPow2 (e - 52) = 1 := by
      rw [← ratPow2_add, show (t : ℤ) + (e - 52) = 0 by omega]
      unfold ratPow2
      norm_num
    have hr : |(n : ℚ)| / ratPow2 (e - 52) = ((n * 2 ^ t : ℕ) : ℚ) := by
      rw [habs, div_eq_iff (ne_of_gt hgpos)]
      push_cast
      rw [mul_assoc, h2t, hginv, mul_one]
    simp only [doubleRound]
    rw [if_neg hne0, if_neg hnlt, ← he, hr, roundHalfEvenNat_natCast]
    push_cast
    rw [mul_assoc, h2t, hginv, mul_one]

theorem doubleRound_intCast_nonneg {z : ℤ} (h0 : 0 ≤ z) (h : z < 2 ^ 53) :
    doubleRound ((z : ℚ)) = (z : ℚ) := by
  have hz : (z : ℚ) = ((z.toNat : ℕ) : ℚ) := by
    exact_mod_cast (Int.toNat_of_nonneg h0).symm
  rw [hz, doubleRound_nat (by omega : z.toNat < 2 ^ 53)]

theorem ratPow2_neg_natCast {k : ℕ} (hk : 1 ≤ k) :
    ratPow2 (-((k : ℕ) : ℤ)) = 1 / ((2 ^ k : ℕ) : ℚ) := by
  unfold ratPow2
  rw [if_neg (by omega : ¬(0:ℤ) ≤ -((k : ℕ) : ℤ))]
  rw [show (-(-((k : ℕ) : ℤ))).toNat = k by omega]

theorem ratPow2_m12 : ratPow2 (-12) = 1 / 4096 := by
  rw [show (-12 : ℤ) = -((12 : ℕ) : ℤ) by norm_num, ratPow2_neg_natCast (by norm_num)]
  norm_num

theorem ratPow2_m2 : ratPow2 (-2) = 1 / 4 := by
  rw [show (-2 : ℤ) = -((2 : ℕ) : ℤ) by norm_num, ratPow2_neg_natCast (by norm_num)]
  norm_num

theorem ratPow2_m54 : ratPow2 (-54) = 1 / 18014398509481984 := by
  rw [show (-54 : ℤ) = -((54 : ℕ) : ℤ) by norm_num, ratPow2_neg_natCast (by norm_num)]
  norm_num

theorem ratPow2_p42 : ratPow2 42 = 4398046511104 := by
  rw [show (42 : ℤ) = ((42 : ℕ) : ℤ) by norm_num, ratPow2_natCast]
  norm_num

theorem ratPow2_p52 : ratPow2 52 = 4503599627370496 := by
  rw [show (52 : ℤ) = ((52 : ℕ) : ℤ) by norm_num, ratPow2_natCast]
  norm_num

theorem eps6_pos : 0 < doubleRound (1 / 1000000) := by
  with_unfolding_all decide

theorem eps6_lt : doubleRound (1 / 1000000) < 2 / 1000000 := by
  with_unfolding_all decide

theorem doubleRound_div1000_err {m : ℕ} (h : m < 1000 * 2 ^ 42) :
    |doubleRound ((m : ℚ) / 1000) - (m : ℚ) / 1000| ≤ 1 / 4096 := by
  have hb : |(m : ℚ) / 1000| < ratPow2 (41 + 1) := by
    rw [show (41 + 1 : ℤ) = 42 by norm_num, ratPow2_p42]
    rw [abs_of_nonneg (by positivity)]
    rw [div_lt_iff (by norm_num : (0:ℚ) < 1000)]
    have hc : (m : ℚ) < 1000 * 4398046511104 := by exact_mod_cast h
    linarith
  have hd := doubleRound_err_of_lt hb
  rw [show (41 - 53 : ℤ) = -12 by norm_num, ratPow2_m12] at hd
  exact hd

theorem pyRound_doubleRound_mul1000 {m : ℕ} (h : m < 1000 * 2 ^ 42) :
    pyRound (doubleRound (doubleRound ((m : ℚ) / 1000) * 1000)) = (m : ℤ) := by
  set q : ℚ := (m : ℚ) / 1000 with hq
  set v := doubleRound q with hv
  have h1 : |v - q| ≤ 1 / 4096 := doubleRound_div1000_err h
  have hq1000 : q * 1000 = (m : ℚ) := by rw [hq]; field_simp
  have h2 : |v * 1000 - (m : ℚ)| ≤ 1000 / 4096 := by
    have hz : v * 1000 - (m : ℚ) = (v - q) * 1000 := by rw [← hq1000]; ring
    rw [hz, abs_mul, abs_of_pos (by norm_num : (0:ℚ) < 1000)]
    calc |v - q| * 1000 ≤ (1 / 4096) * 1000 :=
          mul_le_mul_of_nonneg_right h1 (by norm_num)
      _ = 1000 / 4096 := by ring
  have hm52 : (m : ℚ) < 4398046511104000 := by exact_mod_cast h
  have hb : |v * 1000| < ratPow2 (51 + 1) := by
    rw [show (51 + 1 : ℤ) = 52 by norm_num, ratPow2_p52]
    rw [abs_lt]
    rw [abs_le] at h2
    have hm0 : (0:ℚ) ≤ (m : ℚ) := by positivity
    constructor <;> linarith
  have h3 := doubleRound_err_of_lt hb
  rw [show (51 - 53 : ℤ) = -2 by norm_num, ratPow2_m2] at h3
  apply pyRound_close
  push_cast
  rw [abs_le] at h2 h3
  rw [abs_lt]
  constructor <;> linarith

theorem int_dist_ge_of_not_dvd {m : ℕ} (h : ¬ (1000:ℕ) ∣ m) (z : ℤ) :
    1 / 1000 ≤ |(m : ℚ) / 1000 - (z : ℚ)| := by
  set w : ℤ := (m : ℤ) - 1000 * z with hw
  have hwne : w ≠ 0 := by
    intro h0
    apply h
    have hdvd : ((1000:ℕ) : ℤ) ∣ (m : ℤ) := ⟨z, by push_cast; omega⟩
    exact_mod_cast hdvd
  have h1 : (1:ℚ) ≤ |(w : ℚ)| := by
    have h2 := Int.one_le_abs hwne
    have h3 : ((1:ℤ) : ℚ) ≤ ((|w| : ℤ) : ℚ) := by exact_mod_cast h2
    rw [Int.cast_abs] at h3
    exact_mod_cast h3
  have h2 : (m : ℚ) / 1000 - (z : ℚ) = (w : ℚ) / 1000 := by
    rw [hw]
    push_cast
    ring
  rw [h2, abs_div, show |(1000:ℚ)| = 1000 by norm_num]
  linarith

theorem ratPow2_zero : ratPow2 0 = 1 := by
  unfold ratPow2
  norm_num

theorem fmtFixed_close {q : ℚ} {n : ℕ} (hq : 0 ≤ q)
    (h : |q * 10 ^ 3 - (n : ℚ)| < 1 / 2) :
    fmtFixed 3 q = ⟨natToChars (n / 10 ^ 3) ++ '.' :: padDigits 3 (n % 10 ^ 3)⟩ := by
  unfold fmtFixed
  have habs : |q| = q := abs_of_nonneg hq
  rw [habs, roundHalfEvenNat_close (by positivity) h]
  simp only [if_neg (by norm_num : ¬(3:ℕ) = 0), if_neg (not_lt.mpr hq)]

/-- Character class of the numeric bodies handled in the round trips:
decimal digits and the point. -/
def NumBodyList (cs : List Char) : Prop :=
  ∀ c ∈ cs, (∃ d, d < 10 ∧ c = digitChar d) ∨ c = '.'

theorem numBodyList_of_digitList {cs : List Char} (h : IsDigitList cs) :
    NumBodyList cs := fun c hc => Or.inl (h c hc)

theorem numBodyList_point {a f : List Char} (ha : IsDigitList a)
    (hf : IsDigitList f) : NumBodyList (a ++ '.' :: f) := by
  intro c hc
  rcases List.mem_append.mp hc with hc | hc
  · exact Or.inl (ha c hc)
  · rcases List.mem_cons.mp hc with rfl | hc
    · exact Or.inr rfl
    · exact Or.inl (hf c hc)

theorem numBody_char_facts {c : Char}
    (h : (∃ d, d < 10 ∧ c = digitChar d) ∨ c = '.') :
    pyIsSpace c = false ∧ Char.toLower c = c ∧ spaceKeepChar c = true ∧
    c ≠ 'm' ∧ c ≠ ',' ∧ c ≠ '%' ∧ pctKeepChar c = true := by
  rcases h with ⟨d, hd, rfl⟩ | rfl
  · obtain ⟨h1, h2, _, _, _, h6, h7, h8, h9, h10, h11⟩ := digitChar_facts hd
    exact ⟨h1, h9, h11, h6, h7, h8, h10⟩
  · exact ⟨rfl, rfl, rfl, by decide, by decide, by decide, rfl⟩

theorem int_dist_of_not_dvd {m : ℕ} (h : ¬ (1000:ℕ) ∣ m) (z : ℤ) :
    ¬ (|(m:ℚ) / 1000 - (z:ℚ)| < 1 / 1000000) := by
  intro hcon
  set w : ℤ := (m : ℤ) - 1000 * z with hw
  have hwne : w ≠ 0 := by
    intro h0
    apply h
    have hdvd : ((1000:ℕ) : ℤ) ∣ (m : ℤ) := ⟨z, by push_cast; omega⟩
    exact_mod_cast hdvd
  have h1 : (1:ℚ) ≤ |(w:ℚ)| := by
    have h2 := Int.one_le_abs hwne
    have h3 : ((1:ℤ) : ℚ) ≤ ((|w| : ℤ) : ℚ) := by exact_mod_cast h2
    rw [Int.cast_abs] at h3
    exact_mod_cast h3
  have h2 : (m:ℚ)/1000 - (z:ℚ) = (w:ℚ)/1000 := by
    rw [hw]
    push_cast
    ring
  rw [h2, abs_div] at hcon
  have h3 : |(1000:ℚ)| = 1000 := by norm_num
  rw [h3] at hcon
  linarith

theorem strData_mk (cs : List Char) : (⟨cs⟩ : String).data = cs := rfl

theorem space_display_to_raw_body {body : List Char} {v : ℚ}
    (hb : NumBodyList body) (hne : body ≠ [])
    (hparse : parsePyFloat ⟨body⟩ = some v) :
    space_display_to_raw ⟨body ++ ['m']⟩ = intToString (pyRound (v * 1000)) := by
  have hfacts : ∀ c ∈ body, pyIsSpace c = false ∧ Char.toLower c = c ∧
      spaceKeepChar c = true ∧ c ≠ 'm' ∧ c ≠ ',' := by
    intro c hc
    have h := numBody_char_facts (hb c hc)
    exact ⟨h.1, h.2.1, h.2.2.1, h.2.2.2.1, h.2.2.2.2.1⟩
  have hmnot : 'm' ∉ body := fun hc => (hfacts 'm' hc).2.2.2.1 rfl
  have h1 : pyStrip ⟨body ++ ['m']⟩ = ⟨body ++ ['m']⟩ := by
    apply congrArg String.mk
    apply pyStripList_eq_self
    intro c hc
    rcases List.mem_append.mp hc with hc | hc
    · exact (hfacts c hc).1
    · rw [List.mem_singleton] at hc
      subst hc
      decide
  have h2 : pyLower ⟨body ++ ['m']⟩ = ⟨body ++ ['m']⟩ := by
    apply congrArg String.mk
    apply map_id_of_all
    intro c hc
    rcases List.mem_append.mp hc with hc | hc
    · exact (hfacts c hc).2.1
    · rw [List.mem_singleton] at hc
      subst hc
      decide
  have h3 : pyReplace ⟨body ++ ['m']⟩ "mm" "" = ⟨body ++ ['m']⟩ :=
    congrArg String.mk (replaceChars_double_id hmnot)
  have h4 : pyReplace ⟨body ++ ['m']⟩ "m" "" = ⟨body⟩ :=
    congrArg String.mk (replaceChars_single_drop hmnot)
  have h5 : List.filter spaceKeepChar body = body :=
    List.filter_eq_self.mpr (fun c hc => (hfacts c hc).2.2.1)
  have h6 : pyReplace ⟨body⟩ "," "." = ⟨body⟩ :=
    congrArg String.mk (replaceChars_single_id (fun c hc => (hfacts c hc).2.2.2.2))
  have h7 : pyStrip ⟨body⟩ = ⟨body⟩ :=
    congrArg String.mk (pyStripList_eq_self (fun c hc => (hfacts c hc).1))
  have h8 : (⟨body ++ ['m']⟩ : String) ≠ "" := mkStr_ne_empty (by simp)
  have h9 : (⟨body⟩ : String) ≠ "" := mkStr_ne_empty hne
  simp only [space_display_to_raw, h1, h2, h3, h4, strData_mk, h5, h6, h7,
    if_neg h8, if_neg h9, hparse]

theorem strAppend_mk (cs ds : List Char) :
    (⟨cs⟩ : String) ++ (⟨ds⟩ : String) = ⟨cs ++ ds⟩ := rfl

theorem space_raw_to_display_natToString (m : ℕ) :
    space_raw_to_display (natToString m) =
      if (1000:ℕ) ∣ m then ⟨natToChars (m / 1000) ++ ['m']⟩
      else ⟨(natToChars (m / 1000) ++ '.' ::
        rstripList '0' (padDigits 3 (m % 1000))) ++ ['m']⟩ := by
  have hd := isDigitList_natToChars m
  have hfacts : ∀ c ∈ natToChars m, pyIsSpace c = false ∧ spaceKeepChar c = true ∧
      c ≠ ',' := by
    intro c hc
    obtain ⟨d, hlt, rfl⟩ := hd c hc
    obtain ⟨f1, -, -, -, -, -, f7, -, -, -, f11⟩ := digitChar_facts hlt
    exact ⟨f1, f11, f7⟩
  have h1 : pyStrip ⟨natToChars m⟩ = ⟨natToChars m⟩ :=
    congrArg String.mk (pyStripList_eq_self (fun c hc => (hfacts c hc).1))
  have h2 : List.filter spaceKeepChar (natToChars m) = natToChars m :=
    List.filter_eq_self.mpr (fun c hc => (hfacts c hc).2.1)
  have h3 : pyReplace ⟨natToChars m⟩ "," "." = ⟨natToChars m⟩ :=
    congrArg String.mk (replaceChars_single_id (fun c hc => (hfacts c hc).2.2))
  have h5 : (⟨natToChars m⟩ : String) ≠ "" := mkStr_ne_empty (natToChars_ne_nil m)
  have hparse : parsePyFloat ⟨natToChars m⟩ = some ((m : ℚ)) := by
    rw [parsePyFloat_mk_digits (natToChars_ne_nil m) hd, natFromDigits_natToChars]
  have hnts : natToString m = ⟨natToChars m⟩ := rfl
  rw [hnts]
  simp only [space_raw_to_display, h1, strData_mk, h2, h3, if_neg h5, hparse]
  by_cases hdvd : (1000:ℕ) ∣ m
  · rw [if_pos hdvd]
    obtain ⟨k, rfl⟩ := hdvd
    have hk : (1000 * k : ℕ) / 1000 = k := by omega
    have hmv : ((1000 * k : ℕ) : ℚ) / 1000 = ((k : ℕ) : ℚ) := by push_cast; ring
    rw [hmv, pyRound_natCast]
    have hz : |((k:ℕ) : ℚ) - (((k:ℕ) : ℤ) : ℚ)| = 0 := by
      push_cast
      simp
    rw [hz, if_pos (by norm_num : (0:ℚ) < 1/1000000), intToString_natCast, hk]
    rfl
  · rw [if_neg hdvd, if_neg (int_dist_of_not_dvd hdvd _)]
    have hpow : ((m:ℕ) : ℚ) / 1000 = ((m:ℕ) : ℚ) / 10 ^ 3 := by norm_num
    rw [hpow, fmtFixed_div_pow 3 m (by norm_num)]
    have hp3 : (10:ℕ) ^ 3 = 1000 := by norm_num
    rw [hp3]
    set a := natToChars (m / 1000) with ha
    set f := padDigits 3 (m % 1000) with hf
    have hfa : IsDigitList f := isDigitList_padDigits 3 (m % 1000)
    have hfval : natFromDigits f ≠ 0 := by
      rw [hf, natFromDigits_padDigits]
      intro hcon
      exact hdvd (Nat.dvd_of_mod_eq_zero hcon)
    have hfne : rstripList '0' f ≠ [] := rstripList_ne_nil_of_value hfval
    have hassoc : a ++ '.' :: f = (a ++ ['.']) ++ f := by
      rw [List.append_assoc]
      rfl
    have hstep1 : rstripChar '0' ⟨a ++ '.' :: f⟩ = ⟨a ++ '.' :: rstripList '0' f⟩ := by
      apply congrArg String.mk
      show rstripList '0' (a ++ '.' :: f) = _
      rw [hassoc, rstripList_append_of_ne_nil hfne, List.append_assoc]
      rfl
    rw [hstep1]
    have hfd : IsDigitList (rstripList '0' f) := isDigitList_rstrip hfa
    have hfdot : rstripList '.' (rstripList '0' f) = rstripList '0' f := by
      apply rstripList_eq_self_of_all_ne
      intro c hc
      obtain ⟨d, hlt, rfl⟩ := hfd c hc
      exact (digitChar_facts hlt).2.2.2.2.1
    have hstep2 : rstripChar '.' ⟨a ++ '.' :: rstripList '0' f⟩ =
        ⟨a ++ '.' :: rstripList '0' f⟩ := by
      apply congrArg String.mk
      show rstripList '.' (a ++ '.' :: rstripList '0' f) = _
      have hassoc2 : a ++ '.' :: rstripList '0' f = (a ++ ['.']) ++ rstripList '0' f := by
        rw [List.append_assoc]
        rfl
      have hne2 : rstripList '.' (rstripList '0' f) ≠ [] := by
        rw [hfdot]
        exact hfne
      rw [hassoc2, rstripList_append_of_ne_nil hne2, hfdot]
    rw [hstep2]
    rfl

/-- In the idealized exact-rational float model the spacing round trip
is the identity on every millimetre integer.  The binary64 refinement
below shows this is an artifact of the idealization: under double
rounding the identity only holds below 1000 * 2 ^ 42. -/
theorem space_roundtrip_rat_ideal (m : ℕ) :
    space_display_to_raw (space_raw_to_display (natToString m)) = natToString m := by
  rw [space_raw_to_display_natToString]
  by_cases hdvd : (1000:ℕ) ∣ m
  · rw [if_pos hdvd]
    have hb : NumBodyList (natToChars (m / 1000)) :=
      numBodyList_of_digitList (isDigitList_natToChars _)
    have hne := natToChars_ne_nil (m / 1000)
    have hparse : parsePyFloat ⟨natToChars (m / 1000)⟩ = some (((m / 1000 : ℕ) : ℚ)) := by
      rw [parsePyFloat_mk_digits hne (isDigitList_natToChars _), natFromDigits_natToChars]
    rw [space_display_to_raw_body hb hne hparse]
    obtain ⟨k, rfl⟩ := hdvd
    have hk : (1000 * k) / 1000 = k := by omega
    rw [hk]
    have hmul : ((k:ℕ) : ℚ) * 1000 = ((1000 * k : ℕ) : ℚ) := by push_cast; ring
    rw [hmul, pyRound_natCast, intToString_natCast]
  · rw [if_neg hdvd]
    have hfa : IsDigitList (rstripList '0' (padDigits 3 (m % 1000))) :=
      isDigitList_rstrip (isDigitList_padDigits _ _)
    have hb : NumBodyList (natToChars (m / 1000) ++ '.' ::
        rstripList '0' (padDigits 3 (m % 1000))) :=
      numBodyList_point (isDigitList_natToChars _) hfa
    have hne : natToChars (m / 1000) ++ '.' ::
        rstripList '0' (padDigits 3 (m % 1000)) ≠ [] := by simp
    have hparse : parsePyFloat ⟨natToChars (m / 1000) ++ '.' ::
        rstripList '0' (padDigits 3 (m % 1000))⟩ = some ((m : ℚ) / 1000) := by
      rw [parsePyFloat_mk_point (isDigitList_natToChars _) hfa (natToChars_ne_nil _)]
      congr 1
      rw [natFromDigits_natToChars, rstripList_zero_value (padDigits 3 (m % 1000)),
        natFromDigits_padDigits, padDigits_length (by omega : m % 1000 < 10 ^ 3)]
      have hdm : 1000 * (m / 1000) + m % 1000 = m := Nat.div_add_mod m 1000
      have hc : ((m / 1000 : ℕ) : ℚ) * 1000 + ((m % 1000 : ℕ) : ℚ) = (m : ℚ) := by
        exact_mod_cast by omega
      field_simp
      linarith
    rw [space_display_to_raw_body hb hne hparse]
    have hmul : (m : ℚ) / 1000 * 1000 = (m : ℚ) := by field_simp
    rw [hmul, pyRound_natCast, intToString_natCast]

/-- Under binary64 semantics and below the precision bound, the metre
display of str(m) agrees with the exact-rational model: the float error
of mm / 1000.0 is at most 2 ^ -12, small enough that the integer-snap
branch test and the three-decimal formatting both behave exactly. -/
theorem space_raw_to_display_fp_natToString (m : ℕ) (h : m < 1000 * 2 ^ 42) :
    space_raw_to_display_fp (natToString m) =
      if (1000:ℕ) ∣ m then ⟨natToChars (m / 1000) ++ ['m']⟩
      else ⟨(natToChars (m / 1000) ++ '.' ::
        rstripList '0' (padDigits 3 (m % 1000))) ++ ['m']⟩ := by
  have hd := isDigitList_natToChars m
  have hfacts : ∀ c ∈ natToChars m, pyIsSpace c = false ∧ spaceKeepChar c = true ∧
      c ≠ ',' := by
    intro c hc
    obtain ⟨d, hlt, rfl⟩ := hd c hc
    obtain ⟨f1, -, -, -, -, -, f7, -, -, -, f11⟩ := digitChar_facts hlt
    exact ⟨f1, f11, f7⟩
  have h1 : pyStrip ⟨natToChars m⟩ = ⟨natToChars m⟩ :=
    congrArg String.mk (pyStripList_eq_self (fun c hc => (hfacts c hc).1))
  have h2 : List.filter spaceKeepChar (natToChars m) = natToChars m :=
    List.filter_eq_self.mpr (fun c hc => (hfacts c hc).2.1)
  have h3 : pyReplace ⟨natToChars m⟩ "," "." = ⟨natToChars m⟩ :=
    congrArg String.mk (replaceChars_single_id (fun c hc => (hfacts c hc).2.2))
  have h5 : (⟨natToChars m⟩ : String) ≠ "" := mkStr_ne_empty (natToChars_ne_nil m)
  have hparse : parsePyFloat ⟨natToChars m⟩ = some ((m : ℚ)) := by
    rw [parsePyFloat_mk_digits (natToChars_ne_nil m) hd, natFromDigits_natToChars]
  have hnts : natToString m = ⟨natToChars m⟩ := rfl
  have hK : (1000 * 2 ^ 42 : ℕ) = 4398046511104000 := by norm_num
  have hlt : m < 4398046511104000 := hK ▸ h
  have hm53 : m < 2 ^ 53 := by omega
  rw [hnts]
  simp only [space_raw_to_display_fp, h1, strData_mk, h2, h3, if_neg h5, hparse]
  rw [doubleRound_nat hm53]
  by_cases hdvd : (1000:ℕ) ∣ m
  · rw [if_pos hdvd]
    obtain ⟨k, rfl⟩ := hdvd
    have hk : (1000 * k : ℕ) / 1000 = k := by omega
    have hk53 : k < 2 ^ 53 := by omega
    have hmv : ((1000 * k : ℕ) : ℚ) / 1000 = ((k : ℕ) : ℚ) := by push_cast; ring
    rw [hmv, doubleRound_nat hk53, pyRound_natCast]
    have e3 : doubleRound ((((k : ℕ) : ℤ) : ℚ)) = (((k : ℕ) : ℤ) : ℚ) :=
      doubleRound_intCast_nonneg (Int.natCast_nonneg k) (by exact_mod_cast hk53)
    rw [e3, ratTruncate_intCast, e3]
    have e5 : ((k : ℕ) : ℚ) - ((((k : ℕ) : ℤ)) : ℚ) = 0 := by push_cast; ring
    rw [e5, doubleRound_zero, abs_zero, if_pos eps6_pos, intToString_natCast, hk]
    rfl
  · rw [if_neg hdvd]
    have hm0 : m ≠ 0 := by
      rintro rfl
      exact hdvd ⟨0, rfl⟩
    have hm1 : (1:ℚ) ≤ (m : ℚ) := by exact_mod_cast Nat.one_le_iff_ne_zero.mpr hm0
    have hmq : (m : ℚ) < 4398046511104000 := by exact_mod_cast hlt
    set q : ℚ := (m : ℚ) / 1000 with hqdef
    set v := doubleRound q with hvdef
    have hverr : |v - q| ≤ 1 / 4096 := doubleRound_div1000_err h
    obtain ⟨hv1, hv2⟩ := abs_le.mp hverr
    have hqlb : 1 / 1000 ≤ q := by rw [hqdef]; linarith
    have hqub : q < 4398046511104 := by rw [hqdef]; linarith
    have hvpos : 0 < v := by linarith
    set j := pyRound v with hjdef
    have hj0 : 0 ≤ j := pyRound_nonneg (le_of_lt hvpos)
    obtain ⟨hj1, hj2⟩ := abs_le.mp (pyRound_err v)
    have hj53 : j < 2 ^ 53 := by
      have hjq : (j : ℚ) < 9007199254740992 := by linarith
      have hP : (2 : ℤ) ^ 53 = 9007199254740992 := by norm_num
      rw [hP]
      exact_mod_cast hjq
    have e3 : doubleRound (((j : ℤ) : ℚ)) = ((j : ℤ) : ℚ) :=
      doubleRound_intCast_nonneg hj0 hj53
    rw [e3, ratTruncate_intCast, e3]
    have hdist := int_dist_ge_of_not_dvd hdvd j
    have htri := abs_sub_le q v ((j : ℤ) : ℚ)
    have hqv : |q - v| ≤ 1 / 4096 := by
      rw [abs_le]
      constructor <;> linarith
    have hvj_lb : 1 / 1000 - 1 / 4096 ≤ |v - ((j : ℤ) : ℚ)| := by
      linarith
    have hvj_ub : |v - ((j : ℤ) : ℚ)| ≤ 1 / 2 := by
      rw [abs_le]
      constructor <;> linarith
    have hcond : ¬(|doubleRound (v - ((j : ℤ) : ℚ))| < doubleRound (1 / 1000000)) := by
      apply not_lt.mpr
      have herr2 : |doubleRound (v - ((j : ℤ) : ℚ)) - (v - ((j : ℤ) : ℚ))| ≤
          1 / 18014398509481984 := by
        have hb : |v - ((j : ℤ) : ℚ)| < ratPow2 (-1 + 1) := by
          rw [show (-1 + 1 : ℤ) = 0 by norm_num, ratPow2_zero]
          linarith
        have hz := doubleRound_err_of_lt hb
        rw [show (-1 - 53 : ℤ) = -54 by norm_num, ratPow2_m54] at hz
        exact hz
      have hlow : 1 / 1000 - 1 / 4096 - 1 / 18014398509481984 ≤
          |doubleRound (v - ((j : ℤ) : ℚ))| := by
        have htri2 := abs_sub_abs_le_abs_sub (v - ((j : ℤ) : ℚ))
          (doubleRound (v - ((j : ℤ) : ℚ)))
        have hcm : |(v - ((j : ℤ) : ℚ)) - doubleRound (v - ((j : ℤ) : ℚ))| =
            |doubleRound (v - ((j : ℤ) : ℚ)) - (v - ((j : ℤ) : ℚ))| := abs_sub_comm _ _
        rw [hcm] at htri2
        linarith
      linarith [eps6_lt]
    rw [if_neg hcond]
    have hc3 : |v * 10 ^ 3 - ((m : ℕ) : ℚ)| < 1 / 2 := by
      have hp : (10 : ℚ) ^ 3 = 1000 := by norm_num
      rw [hp]
      have hx : v * 1000 - (m : ℚ) = (v - q) * 1000 := by
        rw [hqdef]
        ring
      rw [hx, abs_mul, abs_of_pos (by norm_num : (0:ℚ) < 1000)]
      have hup : |v - q| * 1000 ≤ (1 / 4096) * 1000 :=
        mul_le_mul_of_nonneg_right hverr (by norm_num)
      linarith
    rw [fmtFixed_close (le_of_lt hvpos) hc3]
    have hp3 : (10 : ℕ) ^ 3 = 1000 := by norm_num
    rw [hp3]
    set a := natToChars (m / 1000) with ha
    set f := padDigits 3 (m % 1000) with hf
    have hfa : IsDigitList f := isDigitList_padDigits 3 (m % 1000)
    have hfval : natFromDigits f ≠ 0 := by
      rw [hf, natFromDigits_padDigits]
      intro hcon
      exact hdvd (Nat.dvd_of_mod_eq_zero hcon)
    have hfne : rstripList '0' f ≠ [] := rstripList_ne_nil_of_value hfval
    have hassoc : a ++ '.' :: f = (a ++ ['.']) ++ f := by
      rw [List.append_assoc]
      rfl
    have hstep1 : rstripChar '0' ⟨a ++ '.' :: f⟩ = ⟨a ++ '.' :: rstripList '0' f⟩ := by
      apply congrArg String.mk
      show rstripList '0' (a ++ '.' :: f) = _
      rw [hassoc, rstripList_append_of_ne_nil hfne, List.append_assoc]
      rfl
    rw [hstep1]
    have hfd : IsDigitList (rstripList '0' f) := isDigitList_rstrip hfa
    have hfdot : rstripList '.' (rstripList '0' f) = rstripList '0' f := by
      apply rstripList_eq_self_of_all_ne
      intro c hc
      obtain ⟨d, hlt2, rfl⟩ := hfd c hc
      exact (digitChar_facts hlt2).2.2.2.2.1
    have hstep2 : rstripChar '.' ⟨a ++ '.' :: rstripList '0' f⟩ =
        ⟨a ++ '.' :: rstripList '0' f⟩ := by
      apply congrArg String.mk
      show rstripList '.' (a ++ '.' :: rstripList '0' f) = _
      have hassoc2 : a ++ '.' :: rstripList '0' f = (a ++ ['.']) ++ rstripList '0' f := by
        rw [List.append_assoc]
        rfl
      have hne2 : rstripList '.' (rstripList '0' f) ≠ [] := by
        rw [hfdot]
        exact hfne
      rw [hassoc2, rstripList_append_of_ne_nil hne2, hfdot]
    rw [hstep2]
    rfl

/-- Evaluation of the binary64 spacing back-conversion on a clean
numeric body followed by the metre suffix, leaving the rounded float
pipeline explicit. -/
theorem space_display_to_raw_fp_body {body : List Char} {v : ℚ}
    (hb : NumBodyList body) (hne : body ≠ [])
    (hparse : parsePyFloat ⟨body⟩ = some v) :
    space_display_to_raw_fp ⟨body ++ ['m']⟩ =
      intToString (ratTruncate (doubleRound
        ((pyRound (doubleRound (doubleRound v * 1000)) : ℤ) : ℚ))) := by
  have hfacts : ∀ c ∈ body, pyIsSpace c = false ∧ Char.toLower c = c ∧
      spaceKeepChar c = true ∧ c ≠ 'm' ∧ c ≠ ',' := by
    intro c hc
    have hp := numBody_char_facts (hb c hc)
    exact ⟨hp.1, hp.2.1, hp.2.2.1, hp.2.2.2.1, hp.2.2.2.2.1⟩
  have hmnot : 'm' ∉ body := fun hc => (hfacts 'm' hc).2.2.2.1 rfl
  have h1 : pyStrip ⟨body ++ ['m']⟩ = ⟨body ++ ['m']⟩ := by
    apply congrArg String.mk
    apply pyStripList_eq_self
    intro c hc
    rcases List.mem_append.mp hc with hc | hc
    · exact (hfacts c hc).1
    · rw [List.mem_singleton] at hc
      subst hc
      decide
  have h2 : pyLower ⟨body ++ ['m']⟩ = ⟨body ++ ['m']⟩ := by
    apply congrArg String.mk
    apply map_id_of_all
    intro c hc
    rcases List.mem_append.mp hc with hc | hc
    · exact (hfacts c hc).2.1
    · rw [List.mem_singleton] at hc
      subst hc
      decide
  have h3 : pyReplace ⟨body ++ ['m']⟩ "mm" "" = ⟨body ++ ['m']⟩ :=
    congrArg String.mk (replaceChars_double_id hmnot)
  have h4 : pyReplace ⟨body ++ ['m']⟩ "m" "" = ⟨body⟩ :=
    congrArg String.mk (replaceChars_single_drop hmnot)
  have h5 : List.filter spaceKeepChar body = body :=
    List.filter_eq_self.mpr (fun c hc => (hfacts c hc).2.2.1)
  have h6 : pyReplace ⟨body⟩ "," "." = ⟨body⟩ :=
    congrArg String.mk (replaceChars_single_id (fun c hc => (hfacts c hc).2.2.2.2))
  have h7 : pyStrip ⟨body⟩ = ⟨body⟩ :=
    congrArg String.mk (pyStripList_eq_self (fun c hc => (hfacts c hc).1))
  have h8 : (⟨body ++ ['m']⟩ : String) ≠ "" := mkStr_ne_empty (by simp)
  have h9 : (⟨body⟩ : String) ≠ "" := mkStr_ne_empty hne
  simp only [space_display_to_raw_fp, h1, h2, h3, h4, strData_mk, h5, h6, h7,
    if_neg h8, if_neg h9, hparse]

/-- C9: the round-trip identity space_display_to_raw (space_raw_to_display
(str m)) = str m holds under IEEE-754 binary64 float semantics for every
nonnegative millimetre integer m below 1000 * 2 ^ 42 = 4398046511104000,
the range in which mm / 1000.0 carries at most 2 ^ -12 of rounding error;
the unbounded identity claimed for the program fails at the first value
past this bound (see the counterexample). -/
theorem C9_space_roundtrip_corrected (m : ℕ) (h : m < 1000 * 2 ^ 42) :
    space_display_to_raw_fp (space_raw_to_display_fp (natToString m)) = natToString m := by
  rw [space_raw_to_display_fp_natToString m h]
  by_cases hdvd : (1000:ℕ) ∣ m
  · rw [if_pos hdvd]
    have hb : NumBodyList (natToChars (m / 1000)) :=
      numBodyList_of_digitList (isDigitList_natToChars _)
    have hne := natToChars_ne_nil (m / 1000)
    have hparse : parsePyFloat ⟨natToChars (m / 1000)⟩ = some (((m / 1000 : ℕ) : ℚ)) := by
      rw [parsePyFloat_mk_digits hne (isDigitList_natToChars _), natFromDigits_natToChars]
    rw [space_display_to_raw_fp_body hb hne hparse]
    obtain ⟨k, rfl⟩ := hdvd
    have hk : (1000 * k) / 1000 = k := by omega
    rw [hk]
    have hk53 : k < 2 ^ 53 := by omega
    have hm53 : 1000 * k < 2 ^ 53 := by omega
    rw [doubleRound_nat hk53]
    have hmul : ((k : ℕ) : ℚ) * 1000 = ((1000 * k : ℕ) : ℚ) := by push_cast; ring
    rw [hmul, doubleRound_nat hm53, pyRound_natCast]
    have e4 : doubleRound ((((1000 * k : ℕ) : ℤ)) : ℚ) = (((1000 * k : ℕ) : ℤ) : ℚ) :=
      doubleRound_intCast_nonneg (Int.natCast_nonneg _) (by exact_mod_cast hm53)
    rw [e4, ratTruncate_intCast, intToString_natCast]
  · rw [if_neg hdvd]
    have hfa : IsDigitList (rstripList '0' (padDigits 3 (m % 1000))) :=
      isDigitList_rstrip (isDigitList_padDigits _ _)
    have hb : NumBodyList (natToChars (m / 1000) ++ '.' ::
        rstripList '0' (padDigits 3 (m % 1000))) :=
      numBodyList_point (isDigitList_natToChars _) hfa
    have hne : natToChars (m / 1000) ++ '.' ::
        rstripList '0' (padDigits 3 (m % 1000)) ≠ [] := by simp
    have hparse : parsePyFloat ⟨natToChars (m / 1000) ++ '.' ::
        rstripList '0' (padDigits 3 (m % 1000))⟩ = some ((m : ℚ) / 1000) := by
      rw [parsePyFloat_mk_point (isDigitList_natToChars _) hfa (natToChars_ne_nil _)]
      congr 1
      rw [natFromDigits_natToChars, rstripList_zero_value (padDigits 3 (m % 1000)),
        natFromDigits_padDigits, padDigits_length (by omega : m % 1000 < 10 ^ 3)]
      have hdm : 1000 * (m / 1000) + m % 1000 = m := Nat.div_add_mod m 1000
      have hc : ((m / 1000 : ℕ) : ℚ) * 1000 + ((m % 1000 : ℕ) : ℚ) = (m : ℚ) := by
        exact_mod_cast by omega
      field_simp
      linarith
    rw [space_display_to_raw_fp_body hb hne hparse]
    rw [pyRound_doubleRound_mul1000 h]
    have hK : (1000 * 2 ^ 42 : ℕ) = 4398046511104000 := by norm_num
    have hm53 : m < 2 ^ 53 := by
      rw [hK] at h
      omega
    have e4 : doubleRound (((m : ℕ) : ℤ) : ℚ) = (((m : ℕ) : ℤ) : ℚ) :=
      doubleRound_intCast_nonneg (Int.natCast_nonneg _) (by exact_mod_cast hm53)
    rw [e4, ratTruncate_intCast, intToString_natCast]

/-- Witness for the corrected C9 at m = 300: "300" displays as "0.3m"
and converts back to "300" under binary64 semantics. -/
theorem C9_space_roundtrip_corrected_witness :
    (300 : ℕ) < 1000 * 2 ^ 42 ∧
      space_display_to_raw_fp (space_raw_to_display_fp (natToString 300)) =
        natToString 300 :=
  ⟨by norm_num, C9_space_roundtrip_corrected 300 (by norm_num)⟩

/-- Counterexample to the unbounded round trip under binary64 semantics:
4398046511104021 mm, the first value past 1000 * 2 ^ 42, displays as
"4398046511104.021m", whose reparse lands exactly on a representable
half (4398046511104021.5) and rounds away to 4398046511104022. -/
theorem C9_space_roundtrip_fp_counterexample :
    space_display_to_raw_fp (space_raw_to_display_fp (natToString 4398046511104021)) =
        natToString 4398046511104022 ∧
      space_display_to_raw_fp (space_raw_to_display_fp (natToString 4398046511104021)) ≠
        natToString 4398046511104021 := by
  have h1 : space_display_to_raw_fp (space_raw_to_display_fp
      (natToString 4398046511104021)) = natToString 4398046511104022 := by
    set_option maxRecDepth 80000 in with_unfolding_all decide
  refine ⟨h1, ?_⟩
  rw [h1]
  with_unfolding_all decide

/-- C8: pct_display_to_raw treats parsed values at most 1 as decimal
fractions and values above 1 as percentages; for every integer n with
2 ≤ n ≤ 100 and for n = 0, the display string str(n) ++ "%" round-trips
through pct_display_to_raw and pct_raw_to_display, whereas "1%" parses
to the fraction 1.0 (raw string "1") and round-trips to "100%". -/
theorem C8_pct_roundtrip (n : ℕ) (h : n = 0 ∨ (2 ≤ n ∧ n ≤ 100)) :
    pct_raw_to_display (pct_display_to_raw (natToString n ++ "%")) =
      natToString n ++ "%"
    ∧ pct_display_to_raw "1%" = "1"
    ∧ pct_raw_to_display (pct_display_to_raw "1%") = "100%" := by
  refine ⟨?_, by with_unfolding_all decide, by with_unfolding_all decide⟩
  rcases h with rfl | ⟨h1, h2⟩
  · with_unfolding_all decide
  · set_option maxHeartbeats 4000000 in
    interval_cases n <;> with_unfolding_all decide

/-- Witness for C8 at n = 50. -/
theorem C8_pct_roundtrip_witness :
    ((50 : ℕ) = 0 ∨ (2 ≤ 50 ∧ 50 ≤ 100)) ∧
    (pct_raw_to_display (pct_display_to_raw (natToString 50 ++ "%")) =
      natToString 50 ++ "%"
    ∧ pct_display_to_raw "1%" = "1"
    ∧ pct_raw_to_display (pct_display_to_raw "1%") = "100%") :=
  ⟨Or.inr (by decide), C8_pct_roundtrip 50 (Or.inr (by decide))⟩

theorem mapIdx_renumber_indices (l : List SpeciesRow) :
    ((l.mapIdx (fun idx row => { row with index := idx + 1 })).map (·.index)) =
      List.range' 1 l.length := by
  rw [List.mapIdx_eq_enum_map, List.map_map]
  have h1 : ((fun r : SpeciesRow => r.index) ∘
      Function.uncurry fun idx row => { row with index := idx + 1 }) =
      ((fun i => i + 1) ∘ Prod.fst : ℕ × SpeciesRow → ℕ) := by
    funext p
    cases p
    rfl
  rw [h1, ← List.map_map, List.enum_map_fst, List.range'_eq_map_range]
  apply List.map_congr_left
  intro a _
  omega

/-- C10: every MixModel keeps 0 ≤ num_species ≤ 15 and
num_species = rows.length: the constructor clamps the stored
Num_Species into [0, 15] before loading that many rows, add_row
refuses to grow past 15, and remove_row_at deletes the row, renumbers
the remaining rows consecutively from 1, and sets num_species to the
new row count. -/
theorem C10_mixmodel_invariant (e : Elem) (m : MixModel) (i : ℤ)
    (hinv : MixInv m) (hi : 0 ≤ i) (hlt : i < (m.rows.length : ℤ)) :
    MixInv (mixModelInit e)
    ∧ MixInv m.add_row
    ∧ (MAX_SPECIES ≤ m.rows.length → m.add_row = m)
    ∧ MixInv (m.remove_row_at i)
    ∧ (m.remove_row_at i).rows.length = m.rows.length - 1
    ∧ ((m.remove_row_at i).rows.map (·.index)) = List.range' 1 (m.rows.length - 1)
    ∧ (m.remove_row_at i).num_species = (m.remove_row_at i).rows.length := by
  have hin : ¬(i < 0 || (m.rows.length : ℤ) ≤ i) = true := by
    simp only [Bool.or_eq_true, decide_eq_true_eq]
    push_neg
    omega
  have hrm : m.remove_row_at i =
      ⟨((m.rows.eraseIdx i.toNat).mapIdx
          (fun idx row => { row with index := idx + 1 })).length,
        (m.rows.eraseIdx i.toNat).mapIdx
          (fun idx row => { row with index := idx + 1 })⟩ := by
    unfold MixModel.remove_row_at
    rw [if_neg hin]
  have htn : i.toNat < m.rows.length := by omega
  have herase : (m.rows.eraseIdx i.toNat).length = m.rows.length - 1 := by
    rw [List.length_eraseIdx]
    rw [if_pos htn]
  refine ⟨?_, ?_, ?_, ?_, ?_, ?_, ?_⟩
  · constructor
    · simp [mixModelInit]
    · simp only [mixModelInit, MAX_SPECIES]
      split_ifs <;> omega
  · obtain ⟨h1, h2⟩ := hinv
    by_cases h : MAX_SPECIES ≤ m.rows.length
    · unfold MixModel.add_row
      rw [if_pos h]
      exact ⟨h1, h2⟩
    · unfold MixModel.add_row
      rw [if_neg h]
      constructor
      · simp
      · simp only [List.length_append, List.length_cons, List.length_nil,
          MAX_SPECIES] at h ⊢
        omega
  · intro h
    unfold MixModel.add_row
    rw [if_pos h]
  · obtain ⟨h1, h2⟩ := hinv
    rw [hrm]
    refine ⟨rfl, ?_⟩
    simp only [MAX_SPECIES] at h2 ⊢
    simp only [List.length_mapIdx, herase]
    omega
  · rw [hrm]
    simp only [List.length_mapIdx, herase]
  · rw [hrm]
    show ((m.rows.eraseIdx i.toNat).mapIdx
        (fun idx row => { row with index := idx + 1 })).map (·.index) = _
    rw [mapIdx_renumber_indices, herase]
  · rw [hrm]

/-- Witness for C10: a one-row model with its only row removed. -/
theorem C10_mixmodel_invariant_witness :
    MixInv (MixModel.remove_row_at ⟨1, [⟨1, "", "", "", "", "", ""⟩]⟩ 0) ∧
    (MixModel.remove_row_at ⟨1, [⟨1, "", "", "", "", "", ""⟩]⟩ 0).rows.length = 0 := by
  have h := C10_mixmodel_invariant ⟨[]⟩ ⟨1, [⟨1, "", "", "", "", "", ""⟩]⟩ 0
    (by constructor <;> decide) (by decide) (by decide)
  exact ⟨h.2.2.2.1, h.2.2.2.2.1⟩

/-- C5: set_param dispatches on the parameter's StorageType: String
receives the value (empty string for None, and a non-string value makes
the host Set raise, which the outer except swallows leaving the element
unchanged); Integer receives int(value) with 0 for empty or unparsable
input; Double receives float(value) with a comma-to-dot fallback and
0.0 for empty or unparsable input; any other storage goes through
SetValueString; a missing parameter leaves the element unchanged.
set_param is a total function: no case raises. -/
theorem C5_set_param_dispatch (e : Elem) (name : String) (v : PyVal) :
    (lookupParam e name = Option.none → set_param e name v = e)
    ∧ (∀ p, lookupParam e name = some p →
      (p.storage = .stringT →
        (v = .none → set_param e name v = updateParam e name (.s ""))
        ∧ (∀ s, v = .str s → set_param e name v = updateParam e name (.s s))
        ∧ (∀ n, v = .int n → set_param e name v = e)
        ∧ (∀ q, v = .float q → set_param e name v = e))
      ∧ (p.storage = .integer → set_param e name v =
          updateParam e name (.i
            (if pyValIsEmptyish v then 0 else (pyIntOfVal v).getD 0)))
      ∧ (p.storage = .double → set_param e name v =
          updateParam e name (.d
            (if pyValIsEmptyish v then 0
             else ((pyFloatOfVal v).orElse
               (fun _ => parsePyFloat (pyReplace (pyStrOfVal v) "," "."))).getD 0)))
      ∧ (p.storage = .noneT ∨ p.storage = .elementId →
          set_param e name v =
            (p.setValueStringResult (pyStrOfVal v)).elim e (updateParam e name))) := by
  constructor
  · intro h
    unfold set_param
    rw [h]
  · intro p hp
    obtain ⟨st, phv, pval, pavs, psvs⟩ := p
    refine ⟨?_, ?_, ?_, ?_⟩
    · intro hst
      cases hst
      refine ⟨?_, ?_, ?_, ?_⟩
      · intro hv
        cases hv
        unfold set_param
        rw [hp]
      · intro s hv
        cases hv
        unfold set_param
        rw [hp]
      · intro n hv
        cases hv
        unfold set_param
        rw [hp]
      · intro q hv
        cases hv
        unfold set_param
        rw [hp]
    · intro hst
      cases hst
      unfold set_param
      rw [hp]
      show updateParam e name _ = updateParam e name _
      congr 1
      cases v with
      | none => rfl
      | str s =>
        by_cases hs : s = ""
        · subst hs
          rfl
        · have h1 : pyValIsEmptyish (.str s) = false := by
            simp [pyValIsEmptyish, hs]
          simp only [h1, Bool.false_eq_true, if_false, pyIntOfVal]
          cases parsePyInt s <;> rfl
      | int n => rfl
      | float q => rfl
    · intro hst
      cases hst
      unfold set_param
      rw [hp]
      show updateParam e name _ = updateParam e name _
      congr 1
      cases v with
      | none => rfl
      | str s =>
        by_cases hs : s = ""
        · subst hs
          rfl
        · have h1 : pyValIsEmptyish (.str s) = false := by
            simp [pyValIsEmptyish, hs]
          simp only [h1, Bool.false_eq_true, if_false, pyFloatOfVal]
          cases parsePyFloat s with
          | none =>
            simp only [Option.orElse]
            cases parsePyFloat (pyReplace (pyStrOfVal (.str s)) "," ".") <;> rfl
          | some q => rfl
      | int n => rfl
      | float q => rfl
    · intro hst
      rcases hst with hst | hst
      · cases hst
        unfold set_param
        rw [hp]
        show (match psvs (pyStrOfVal v) with
              | some w => updateParam e name w
              | Option.none => e) =
            (psvs (pyStrOfVal v)).elim e (updateParam e name)
        cases psvs (pyStrOfVal v) <;> rfl
      · cases hst
        unfold set_param
        rw [hp]
        show (match psvs (pyStrOfVal v) with
              | some w => updateParam e name w
              | Option.none => e) =
            (psvs (pyStrOfVal v)).elim e (updateParam e name)
        cases psvs (pyStrOfVal v) <;> rfl

/-- Witness for C5: a String parameter receives a string value. -/
theorem C5_set_param_dispatch_witness :
    set_param ⟨[("A", ⟨.stringT, false, .s "", Option.none, fun _ => Option.none⟩)]⟩
        "A" (.str "x") =
      updateParam ⟨[("A", ⟨.stringT, false, .s "", Option.none, fun _ => Option.none⟩)]⟩
        "A" (.s "x") :=
  (((C5_set_param_dispatch
      ⟨[("A", ⟨.stringT, false, .s "", Option.none, fun _ => Option.none⟩)]⟩
      "A" (.str "x")).2
    ⟨.stringT, false, .s "", Option.none, fun _ => Option.none⟩ rfl).1 rfl).2.1 "x" rfl

/-- C7: get_floor_below_point raycasts straight down from 10 ft above
the picked point, with an ElementClassFilter(Floor), in the first
non-template 3D view; it returns None when the document has no
non-template 3D view and when the ray hits no floor, and otherwise the
element of the nearest hit. -/
theorem C7_get_floor_below_point (doc : RayDoc) (pick : XYZ) :
    ((∀ v ∈ doc.views3d, v.isTemplate = true) →
      get_floor_below_point doc pick = Option.none)
    ∧ (∀ v, get_any_3d_view doc = some v →
        v.isTemplate = false ∧ v ∈ doc.views3d
        ∧ (doc.findNearest RayFilter.floorClass v (xyzAdd pick ⟨0, 0, 10⟩)
            ⟨0, 0, -1⟩ = Option.none →
            get_floor_below_point doc pick = Option.none)
        ∧ (∀ r, doc.findNearest RayFilter.floorClass v (xyzAdd pick ⟨0, 0, 10⟩)
            ⟨0, 0, -1⟩ = some r →
            get_floor_below_point doc pick = some (doc.getFloor r.elementId))) := by
  constructor
  · intro h
    have hv : get_any_3d_view doc = Option.none := by
      unfold get_any_3d_view
      rw [List.find?_eq_none]
      intro v hvm
      simp [h v hvm]
    unfold get_floor_below_point
    rw [hv]
  · intro v hv
    have hmem : v ∈ doc.views3d := List.mem_of_find?_eq_some hv
    have htpl : v.isTemplate = false := by
      have := List.find?_some hv
      simpa using this
    refine ⟨htpl, hmem, ?_, ?_⟩
    · intro hfn
      unfold get_floor_below_point
      rw [hv]
      show (match doc.findNearest RayFilter.floorClass v (xyzAdd pick ⟨0, 0, 10⟩)
              ⟨0, 0, -1⟩ with
            | Option.none => Option.none
            | some result => some (doc.getFloor result.elementId)) = _
      rw [hfn]
    · intro r hfn
      unfold get_floor_below_point
      rw [hv]
      show (match doc.findNearest RayFilter.floorClass v (xyzAdd pick ⟨0, 0, 10⟩)
              ⟨0, 0, -1⟩ with
            | Option.none => Option.none
            | some result => some (doc.getFloor result.elementId)) = _
      rw [hfn]

/-- Witness for C7: one non-template view, a raycast that hits floor 42. -/
theorem C7_get_floor_below_point_witness :
    get_floor_below_point
      ⟨[⟨false, 1⟩], fun _ _ _ _ => some ⟨42⟩, fun i => ⟨i⟩⟩ ⟨0, 0, 0⟩ =
      some ⟨42⟩ :=
  ((C7_get_floor_below_point
      ⟨[⟨false, 1⟩], fun _ _ _ _ => some ⟨42⟩, fun i => ⟨i⟩⟩ ⟨0, 0, 0⟩).2
    ⟨false, 1⟩ rfl).2.2.2 ⟨42⟩ rfl

/-- C4: all mutations of a run sit inside one transaction.  For
Boundary.main (once the area-plan check, point pick and floor lookup
succeed) and for on_apply (once there are mixes): on success the
transaction events are exactly [start, commit] and the new document is
kept; when an exception escapes the work the events are exactly
[start, rollback], the document is left unchanged, and an alert is
shown instead of the exception propagating (the embedding is total).
The Area-placement step's own failure is caught inside the transaction,
so the boundary work still commits. -/
theorem C4_transaction_wrapping {D E : Type} (work body : D → Except E D)
    (doc : D) (p : XYZ) :
    (∀ err, work doc = .error err →
      boundaryMain true (some p) true work doc = (doc, [.start, .rollback], true))
    ∧ (∀ d2, work doc = .ok d2 →
      boundaryMain true (some p) true work doc = (d2, [.start, .commit], false))
    ∧ (∀ err, body doc = .error err →
      onApplyTx false body doc = (doc, [.start, .rollback], true))
    ∧ (∀ d2, body doc = .ok d2 →
      onApplyTx false body doc = (d2, [.start, .commit], false))
    ∧ onApplyTx true body doc = (doc, [], false)
    ∧ (∀ (bStep aStep : D → Except E D) (d2 : D) (err : E),
      bStep doc = Except.ok d2 → aStep d2 = .error err →
      boundaryMainWork bStep aStep doc = .ok d2) := by
  refine ⟨?_, ?_, ?_, ?_, rfl, ?_⟩
  · intro err h
    simp [boundaryMain, h]
  · intro d2 h
    simp [boundaryMain, h]
  · intro err h
    simp [onApplyTx, h]
  · intro d2 h
    simp [onApplyTx, h]
  · intro bStep aStep d2 err hb ha
    simp [boundaryMainWork, hb, ha]

/-- Witness for C4: a failing work function rolls back. -/
theorem C4_transaction_wrapping_witness :
    boundaryMain true (some ⟨0, 0, 0⟩) true
      (fun _ : ℕ => (Except.error () : Except Unit ℕ)) 7 =
      (7, [.start, .rollback], true) :=
  (C4_transaction_wrapping (fun _ : ℕ => (Except.error () : Except Unit ℕ))
    (fun d => Except.ok d) 7 ⟨0, 0, 0⟩).1 () rfl

theorem buildColorStep_mem {acc : List (String × ColorEntry)} {e : ColorEntry}
    {kv : String × ColorEntry}
    (h : kv ∈ (let keys := get_color_entry_keys e
      let lookup2 :=
        if keys.1 ≠ "" && !lookupHasKey acc keys.1 then
          acc ++ [(keys.1, e)]
        else acc
      if keys.2 ≠ "" && !lookupHasKey lookup2 keys.2 then
        lookup2 ++ [(keys.2, e)]
      else lookup2)) :
    kv ∈ acc ∨ kv = ((get_color_entry_keys e).1, e) ∨
      kv = ((get_color_entry_keys e).2, e) := by
  simp only at h
  split_ifs at h <;>
    [rcases List.mem_append.mp h with h | h;
     skip;
     rcases List.mem_append.mp h with h | h;
     skip] <;>
    first
    | (rcases List.mem_append.mp h with h | h
       · exact Or.inl h
       · rw [List.mem_singleton] at h
         exact Or.inr (Or.inl h))
    | (rw [List.mem_singleton] at h
       exact Or.inr (Or.inr h))
    | exact Or.inl h

theorem buildColorLookup_mem_aux (entries : List ColorEntry) :
    ∀ (acc : List (String × ColorEntry)) kv,
      kv ∈ entries.foldl (fun lookup entry =>
        let keys := get_color_entry_keys entry
        let lookup2 :=
          if keys.1 ≠ "" && !lookupHasKey lookup keys.1 then
            lookup ++ [(keys.1, entry)]
          else lookup
        if keys.2 ≠ "" && !lookupHasKey lookup2 keys.2 then
          lookup2 ++ [(keys.2, entry)]
        else lookup2) acc →
      kv ∈ acc ∨ ∃ entry ∈ entries,
        (kv.1 = (get_color_entry_keys entry).1 ∨
         kv.1 = (get_color_entry_keys entry).2) ∧ kv.2 = entry := by
  induction entries with
  | nil =>
    intro acc kv h
    exact Or.inl h
  | cons e es ih =>
    intro acc kv h
    rw [List.foldl_cons] at h
    rcases ih _ kv h with hmem | ⟨entry, hent, hkv⟩
    · rcases buildColorStep_mem hmem with hmem | hmem | hmem
      · exact Or.inl hmem
      · subst hmem
        exact Or.inr ⟨e, List.mem_cons_self e es, Or.inl rfl, rfl⟩
      · subst hmem
        exact Or.inr ⟨e, List.mem_cons_self e es, Or.inr rfl, rfl⟩
    · exact Or.inr ⟨entry, List.mem_cons_of_mem e hent, hkv⟩

/-- C6: _attach_color_to_mix links a mix to a colour-scheme entry by
matching the trimmed mix name against each entry's value key or
caption (the keys of the mapping built by _load_color_entries), trying
an exact match first and then a trimmed case-insensitive comparison;
when no entry matches, the entry and stored colour stay None and the
swatch is not editable. -/
theorem C6_attach_color_to_mix (entries : List ColorEntry)
    (mapping : List (String × ColorEntry)) (mix : MixColorState)
    (hm : mapping.isEmpty = false) (hk : pyStrip mix.mix_name ≠ "") :
    (∀ kv ∈ buildColorLookup entries, ∃ entry ∈ entries,
      (kv.1 = (get_color_entry_keys entry).1 ∨
       kv.1 = (get_color_entry_keys entry).2) ∧ kv.2 = entry)
    ∧ (∀ ke, mapping.find? (fun kv => kv.1 == pyStrip mix.mix_name) = some ke →
        (attach_color_to_mix true mapping mix).area_color_entry = some ke.2
        ∧ (attach_color_to_mix true mapping mix).area_color_dbcolor = ke.2.color
        ∧ (attach_color_to_mix true mapping mix).area_color_new_dbcolor = Option.none)
    ∧ (mapping.find? (fun kv => kv.1 == pyStrip mix.mix_name) = Option.none →
        ∀ ke, mapping.find?
            (fun kv => pyLower (pyStrip kv.1) == pyLower (pyStrip mix.mix_name)) =
            some ke →
          (attach_color_to_mix true mapping mix).area_color_entry = some ke.2)
    ∧ (mapping.find? (fun kv => kv.1 == pyStrip mix.mix_name) = Option.none →
        mapping.find?
            (fun kv => pyLower (pyStrip kv.1) == pyLower (pyStrip mix.mix_name)) =
            Option.none →
          (attach_color_to_mix true mapping mix).area_color_entry = Option.none
          ∧ (attach_color_to_mix true mapping mix).area_color_dbcolor = Option.none
          ∧ swatchIsEditable true (attach_color_to_mix true mapping mix) = false) := by
  have hcond : (!true || mapping.isEmpty) = false := by
    rw [hm]
    rfl
  refine ⟨?_, ?_, ?_, ?_⟩
  · intro kv hkv
    have h := buildColorLookup_mem_aux entries [] kv hkv
    rcases h with h | h
    · exact absurd h (List.not_mem_nil kv)
    · exact h
  · intro ke hfind
    unfold attach_color_to_mix
    rw [hcond]
    simp only [Bool.false_eq_true, if_false, if_neg hk, hfind, Option.map_some]
    and_intros <;> trivial
  · intro hnone ke hfind
    unfold attach_color_to_mix
    rw [hcond]
    simp only [Bool.false_eq_true, if_false, if_neg hk, hnone, Option.map_none,
      hfind, Option.map_some]
    rfl
  · intro hnone hnone2
    unfold attach_color_to_mix
    rw [hcond]
    simp only [Bool.false_eq_true, if_false, if_neg hk, hnone, Option.map_none,
      hnone2]
    and_intros <;> trivial

/-- Witness for C6: an exact name match picks up the entry. -/
theorem C6_attach_color_to_mix_witness :
    (attach_color_to_mix true
      [("Mix A", ⟨.stringS, some "Mix A", Option.none, Option.none, Option.none,
        some "Mix A", some ⟨1, 2, 3⟩⟩)]
      ⟨"Mix A", Option.none, Option.none, Option.none⟩).area_color_entry =
      some ⟨.stringS, some "Mix A", Option.none, Option.none, Option.none,
        some "Mix A", some ⟨1, 2, 3⟩⟩ :=
  ((C6_attach_color_to_mix []
      [("Mix A", ⟨.stringS, some "Mix A", Option.none, Option.none, Option.none,
        some "Mix A", some ⟨1, 2, 3⟩⟩)]
      ⟨"Mix A", Option.none, Option.none, Option.none⟩
      rfl (by decide)).2.1
    ("Mix A", ⟨.stringS, some "Mix A", Option.none, Option.none, Option.none,
      some "Mix A", some ⟨1, 2, 3⟩⟩) rfl).1

theorem offsetBestPair (rad : CurveLoop → ℚ) (p m loop : CurveLoop) :
    (match List.foldl (fun acc cl =>
        match acc with
        | Option.none => some (cl, rad cl)
        | some br => if rad cl < br.2 then some (cl, rad cl) else acc)
      Option.none [p, m] with
     | some br => br.1
     | Option.none => loop) = if rad m < rad p then m else p := by
  simp only [List.foldl_cons, List.foldl_nil]
  split_ifs <;> rfl

/-- C3: offset_loop_inwards tries the offset at +d and -d; with both
candidates it returns the one whose average sampled-point distance from
the centroid of the original loop is smaller (the +d candidate on a
tie), with exactly one it returns that one, and with none it returns
the original loop, so it always returns a loop. -/
theorem C3_offset_loop_inwards (K : GeomKernel) (loop : CurveLoop) (d : ℚ)
    (normal : XYZ) (n : ℕ) :
    (K.createViaOffset loop d normal = Option.none →
      K.createViaOffset loop (-d) normal = Option.none →
      offset_loop_inwards K loop d normal n = loop)
    ∧ (∀ p, K.createViaOffset loop d normal = some p →
      K.createViaOffset loop (-d) normal = Option.none →
      offset_loop_inwards K loop d normal n = p)
    ∧ (∀ m, K.createViaOffset loop d normal = Option.none →
      K.createViaOffset loop (-d) normal = some m →
      offset_loop_inwards K loop d normal n = m)
    ∧ (∀ p m, K.createViaOffset loop d normal = some p →
      K.createViaOffset loop (-d) normal = some m →
      (offset_loop_inwards K loop d normal n =
        (if average_radius K.getLength m
              (compute_centroid (sample_points_on_curveloop loop n)) n <
            average_radius K.getLength p
              (compute_centroid (sample_points_on_curveloop loop n)) n
         then m else p))
      ∧ average_radius K.getLength (offset_loop_inwards K loop d normal n)
          (compute_centroid (sample_points_on_curveloop loop n)) n ≤
        average_radius K.getLength p
          (compute_centroid (sample_points_on_curveloop loop n)) n
      ∧ average_radius K.getLength (offset_loop_inwards K loop d normal n)
          (compute_centroid (sample_points_on_curveloop loop n)) n ≤
        average_radius K.getLength m
          (compute_centroid (sample_points_on_curveloop loop n)) n) := by
  refine ⟨?_, ?_, ?_, ?_⟩
  · intro h1 h2
    simp [offset_loop_inwards, h1, h2]
  · intro p h1 h2
    simp [offset_loop_inwards, h1, h2]
  · intro m h1 h2
    simp [offset_loop_inwards, h1, h2]
  · intro p m h1 h2
    have hres : offset_loop_inwards K loop d normal n =
        (if average_radius K.getLength m
              (compute_centroid (sample_points_on_curveloop loop n)) n <
            average_radius K.getLength p
              (compute_centroid (sample_points_on_curveloop loop n)) n
         then m else p) := by
      simp only [offset_loop_inwards, h1, h2]
      exact offsetBestPair
        (fun cl => average_radius K.getLength cl
          (compute_centroid (sample_points_on_curveloop loop n)) n) p m loop
    refine ⟨hres, ?_, ?_⟩ <;> rw [hres] <;> split_ifs with hlt
    · exact le_of_lt hlt
    · exact le_refl _
    · exact le_refl _
    · exact le_of_not_lt hlt

/-- Witness for C3: no offset candidate can be built, the loop is
returned unchanged. -/
theorem C3_offset_loop_inwards_witness :
    offset_loop_inwards
      ⟨fun _ _ => Option.none, fun _ _ => Option.none, fun _ _ => Option.none,
       fun _ => Option.none, fun _ _ _ => Option.none, fun _ => 0⟩
      [] 1 ⟨0, 0, 1⟩ 6 = [] :=
  (C3_offset_loop_inwards
    ⟨fun _ _ => Option.none, fun _ _ => Option.none, fun _ _ => Option.none,
     fun _ => Option.none, fun _ _ _ => Option.none, fun _ => 0⟩
    [] 1 ⟨0, 0, 1⟩ 6).1 rfl rfl

/-- C2: for every planting instance inside the search region whose
symbol reads as a tree and whose type has a valued Trunk Diameter > 0,
draw_tree_trunks creates exactly two Area Boundary arcs forming a full
circle centred at the instance's location point at the view elevation,
with diameter Trunk Diameter + 100 mm; and
create_area_boundaries_from_floor draws them in both branches, whether
or not a plant-inverse boundary was created. -/
theorem C2_draw_tree_trunks (plants : List PlantInstance) (targetZ : ℚ)
    (K : GeomKernel) (view : AreaPlanView) :
    (∀ (outline : Outline) (inst : PlantInstance) (pt : XYZ) (diam : ℚ),
      (match inst.bbox with
       | some b => outlineIntersectsBBox outline b
       | Option.none => true) = true →
      inst.location = some pt →
      is_tree_symbol inst.symbol = true →
      inst.symbol.trunkDiameter = some diam →
      0 < diam →
      treeTrunkArcsFor outline targetZ inst =
        [⟨⟨pt.x, pt.y, targetZ⟩, 1 / 2 * (diam + TREE_EXTRA_DIAM_MM / (3048 / 10)), 0, 1⟩,
         ⟨⟨pt.x, pt.y, targetZ⟩, 1 / 2 * (diam + TREE_EXTRA_DIAM_MM / (3048 / 10)), 1, 2⟩]
      ∧ 2 * (1 / 2 * (diam + TREE_EXTRA_DIAM_MM / (3048 / 10))) =
          diam + 100 / (3048 / 10))
    ∧ (∀ (outerLoop : CurveLoop) (p0 : XYZ) (rest : List XYZ),
      outerLoop.map (·.ep0) = p0 :: rest →
      draw_tree_trunks plants outerLoop targetZ =
        plants.flatMap (treeTrunkArcsFor
          ⟨⟨rest.foldl (fun a q => min a q.x) p0.x - SEARCH_MARGIN_M * FT_PER_M,
            rest.foldl (fun a q => min a q.y) p0.y - SEARCH_MARGIN_M * FT_PER_M,
            p0.z - 1000⟩,
           ⟨rest.foldl (fun a q => max a q.x) p0.x + SEARCH_MARGIN_M * FT_PER_M,
            rest.foldl (fun a q => max a q.y) p0.y + SEARCH_MARGIN_M * FT_PER_M,
            p0.z + 1000⟩⟩ targetZ))
    ∧ (∀ (loops : List CurveLoop) (outerLoop : CurveLoop),
      loops.isEmpty = false →
      (loops.foldl (fun acc cl =>
        let length := curveLoopLength cl
        if length > acc.2 then (some cl, length) else acc)
        ((Option.none : Option CurveLoop), (0 : ℚ))).1 = some outerLoop →
      ¬((outerLoop.map (·.ep0)).length < 3) →
      (create_area_boundaries_from_floor K plants view (some loops)).treeArcs =
        draw_tree_trunks plants outerLoop
          (match view.genLevelElevation with
           | some e => e
           | Option.none => view.sketchPlaneOriginZ)) := by
  refine ⟨?_, ?_, ?_⟩
  · intro outline inst pt diam hbb hloc htree htrunk hpos
    obtain ⟨bb, loc, sym⟩ := inst
    simp only at hbb hloc htree htrunk
    subst hloc
    unfold treeTrunkArcsFor
    simp only [hbb, htree, htrunk]
    rw [if_neg (by simp), if_neg (not_le.mpr hpos)]
    constructor
    · rfl
    · unfold TREE_EXTRA_DIAM_MM
      ring
  · intro outerLoop p0 rest houter
    unfold draw_tree_trunks
    rw [houter]
  · intro loops outerLoop hne hsel hlen
    simp only [create_area_boundaries_from_floor, hne, Bool.false_eq_true,
      if_false, hsel, if_neg hlen]
    cases hp : (create_plant_area_boundary K plants outerLoop
        (match view.genLevelElevation with
         | some e => e
         | Option.none => view.sketchPlaneOriginZ)).1 <;>
      simp [hp]

/-- Witness for C2: a tree instance with Trunk Diameter 1 ft gets its
two half-circle arcs. -/
theorem C2_draw_tree_trunks_witness :
    treeTrunkArcsFor ⟨⟨0, 0, 0⟩, ⟨0, 0, 0⟩⟩ 0
      ⟨Option.none, some ⟨5, 6, 0⟩,
        ⟨some "Oak Tree", some "Trees", Option.none, Option.none, some 1⟩⟩ =
      [⟨⟨5, 6, 0⟩, 1 / 2 * (1 + TREE_EXTRA_DIAM_MM / (3048 / 10)), 0, 1⟩,
       ⟨⟨5, 6, 0⟩, 1 / 2 * (1 + TREE_EXTRA_DIAM_MM / (3048 / 10)), 1, 2⟩]
    ∧ 2 * (1 / 2 * ((1 : ℚ) + TREE_EXTRA_DIAM_MM / (3048 / 10))) =
        1 + 100 / (3048 / 10) :=
  (C2_draw_tree_trunks []
      0 ⟨fun _ _ => Option.none, fun _ _ => Option.none, fun _ _ => Option.none,
         fun _ => Option.none, fun _ _ _ => Option.none, fun _ => 0⟩
      ⟨Option.none, 0⟩).1
    ⟨⟨0, 0, 0⟩, ⟨0, 0, 0⟩⟩
    ⟨Option.none, some ⟨5, 6, 0⟩,
      ⟨some "Oak Tree", some "Trees", Option.none, Option.none, some 1⟩⟩
    ⟨5, 6, 0⟩ 1 rfl rfl (by decide) rfl (by norm_num)

/-- C1: create_plant_area_boundary returns True exactly when at least
one Area Boundary segment was created; a non-tree planting instance
with a valued Spread inside the search region contributes a disc of
radius max(Spread/2, 0.05) ft (making the disc list nonempty); on the
success path the created segments are exactly the top-face edges of
the Boolean difference of the extruded outer loop minus the union of
the plant discs (each disc enlarged by the 0.20 m offset before
extrusion), re-projected to the view's level elevation, with segments
shorter than 1/48 ft skipped; and when a plant boundary was created,
create_area_boundaries_from_floor draws no floor-outline boundary. -/
theorem C1_create_plant_area_boundary (K : GeomKernel)
    (plants : List PlantInstance) (outerLoop : CurveLoop) (targetZ : ℚ)
    (view : AreaPlanView) :
    ((create_plant_area_boundary K plants outerLoop targetZ).1 =
      !(create_plant_area_boundary K plants outerLoop targetZ).2.isEmpty)
    ∧ (∀ (p0 pt : XYZ) (rest : List XYZ) (floorZ diam : ℚ)
        (inst : PlantInstance),
      inst ∈ plants →
      inst.location = some pt →
      is_tree_symbol inst.symbol = false →
      inst.symbol.spread = some diam →
      (match inst.bbox with
       | some b => outlineIntersectsBBox
           ⟨⟨rest.foldl (fun a q => min a q.x) p0.x - SEARCH_MARGIN_M * FT_PER_M,
             rest.foldl (fun a q => min a q.y) p0.y - SEARCH_MARGIN_M * FT_PER_M,
             floorZ - 1000⟩,
            ⟨rest.foldl (fun a q => max a q.x) p0.x + SEARCH_MARGIN_M * FT_PER_M,
             rest.foldl (fun a q => max a q.y) p0.y + SEARCH_MARGIN_M * FT_PER_M,
             floorZ + 1000⟩⟩ b
       | Option.none => true) = true →
      (⟨pt.x, pt.y, floorZ⟩, max (1 / 2 * diam) (1 / 20)) ∈
        collect_plants plants (p0 :: rest) (SEARCH_MARGIN_M * FT_PER_M) floorZ
      ∧ collect_plants plants (p0 :: rest) (SEARCH_MARGIN_M * FT_PER_M) floorZ ≠ [])
    ∧ (∀ (p0 : XYZ) (rest : List XYZ) (u ps pm : Solid) (z0 : ℚ) (zs : List ℚ),
      outerLoop.map (·.ep0) = p0 :: rest →
      ¬((outerLoop.map (·.ep0)).length < 3) →
      (collect_plants plants (outerLoop.map (·.ep0))
        (SEARCH_MARGIN_M * FT_PER_M) p0.z).isEmpty = false →
      ((collect_plants plants (outerLoop.map (·.ep0))
          (SEARCH_MARGIN_M * FT_PER_M) p0.z).foldl (fun acc cr =>
        match K.buildDisc cr.1 (cr.2 + max 0 (PLANT_OFFSET_M * FT_PER_M)) with
        | Option.none => acc
        | some s =>
          match acc with
          | Option.none => some s
          | some u0 =>
            match K.booleanUnion u0 s with
            | some u2 => some u2
            | Option.none => some u0) Option.none) = some u →
      K.extrudeLoop outerLoop = some ps →
      K.booleanDiff ps u = some pm →
      pm.edges.flatMap (fun c => [c.ep0.z, c.ep1.z]) = z0 :: zs →
      ((create_plant_area_boundary K plants outerLoop targetZ).2 =
        pm.edges.filterMap (fun c =>
          if |c.ep0.z - zs.foldl max z0| < 1 / 1000000 &&
              |c.ep1.z - zs.foldl max z0| < 1 / 1000000 then
            if (translateZ (targetZ - zs.foldl max z0) c).approxLength < 1 / 48 then
              Option.none
            else some (translateZ (targetZ - zs.foldl max z0) c)
          else Option.none)
      ∧ (∀ s, s ∈ (create_plant_area_boundary K plants outerLoop targetZ).2 ↔
          ∃ c ∈ pm.edges,
            (|c.ep0.z - zs.foldl max z0| < 1 / 1000000 &&
              |c.ep1.z - zs.foldl max z0| < 1 / 1000000) = true ∧
            ¬((translateZ (targetZ - zs.foldl max z0) c).approxLength < 1 / 48) ∧
            s = translateZ (targetZ - zs.foldl max z0) c)))
    ∧ (∀ loops : List CurveLoop,
      loops.isEmpty = false →
      (loops.foldl (fun acc cl =>
        let length := curveLoopLength cl
        if length > acc.2 then (some cl, length) else acc)
        ((Option.none : Option CurveLoop), (0 : ℚ))).1 = some outerLoop →
      ¬((outerLoop.map (·.ep0)).length < 3) →
      (create_plant_area_boundary K plants outerLoop
        (match view.genLevelElevation with
         | some e => e
         | Option.none => view.sketchPlaneOriginZ)).1 = true →
      (create_area_boundaries_from_floor K plants view (some loops)).outlineSegs = []
      ∧ (create_area_boundaries_from_floor K plants view (some loops)).ok = true) := by
  refine ⟨?_, ?_, ?_, ?_⟩
  · by_cases hlen : (outerLoop.map (·.ep0)).length < 3
    · unfold create_plant_area_boundary
      rw [if_pos hlen]
      rfl
    · rcases hpoly : outerLoop.map (·.ep0) with _ | ⟨p0, t⟩
      · exact absurd (by rw [hpoly]; norm_num :
          (outerLoop.map (·.ep0)).length < 3) hlen
      · unfold create_plant_area_boundary
        rw [if_neg hlen, hpoly]
        by_cases hd : (collect_plants plants (p0 :: t)
            (SEARCH_MARGIN_M * FT_PER_M) p0.z).isEmpty = true
        · simp only [hd, if_true]
          rfl
        · have hd2 : (collect_plants plants (p0 :: t)
              (SEARCH_MARGIN_M * FT_PER_M) p0.z).isEmpty = false := by
            simpa using hd
          simp only [hd2, Bool.false_eq_true, if_false]
          cases hu : List.foldl (fun acc cr =>
              match K.buildDisc cr.1 (cr.2 + max 0 (PLANT_OFFSET_M * FT_PER_M)) with
              | Option.none => acc
              | some s =>
                match acc with
                | Option.none => some s
                | some u0 =>
                  match K.booleanUnion u0 s with
                  | some u2 => some u2
                  | Option.none => some u0) Option.none
              (collect_plants plants (p0 :: t) (SEARCH_MARGIN_M * FT_PER_M) p0.z) with
          | none =>
            simp only [hu]
            rfl
          | some u =>
            simp only [hu]
            cases he : K.extrudeLoop outerLoop with
            | none =>
              simp only [he]
              rfl
            | some ps =>
              simp only [he]
              cases hdf : K.booleanDiff ps u with
              | none =>
                simp only [hdf]
                rfl
              | some pm =>
                simp only [hdf]
                cases hz : pm.edges.flatMap (fun c => [c.ep0.z, c.ep1.z]) with
                | nil =>
                  simp only [hz]
                  rfl
                | cons z0 zs =>
                  simp only [hz]
  · intro p0 pt rest floorZ diam inst hmem hloc htree hspread hbb
    have hin : (⟨pt.x, pt.y, floorZ⟩, max (1 / 2 * diam) (1 / 20)) ∈
        collect_plants plants (p0 :: rest) (SEARCH_MARGIN_M * FT_PER_M) floorZ := by
      unfold collect_plants
      rw [List.mem_filterMap]
      refine ⟨inst, hmem, ?_⟩
      rw [if_neg (by rw [hbb]; simp), hloc, htree]
      simp only [Bool.false_eq_true, if_false, hspread]
    exact ⟨hin, List.ne_nil_of_mem hin⟩
  · intro p0 rest u ps pm z0 zs houter hlen hdiscs hunion hext hdiff hzv
    have heq : (create_plant_area_boundary K plants outerLoop targetZ).2 =
        pm.edges.filterMap (fun c =>
          if |c.ep0.z - zs.foldl max z0| < 1 / 1000000 &&
              |c.ep1.z - zs.foldl max z0| < 1 / 1000000 then
            if (translateZ (targetZ - zs.foldl max z0) c).approxLength < 1 / 48 then
              Option.none
            else some (translateZ (targetZ - zs.foldl max z0) c)
          else Option.none) := by
      unfold create_plant_area_boundary
      rw [if_neg hlen, houter] at *
      rw [houter] at hdiscs hunion
      simp only [hdiscs, Bool.false_eq_true, if_false, hunion, hext,
        hdiff, hzv]
    refine ⟨heq, ?_⟩
    intro s
    rw [heq, List.mem_filterMap]
    constructor
    · rintro ⟨c, hc, hfc⟩
      refine ⟨c, hc, ?_⟩
      by_cases h1 : (|c.ep0.z - zs.foldl max z0| < 1 / 1000000 &&
          |c.ep1.z - zs.foldl max z0| < 1 / 1000000) = true
      · rw [if_pos h1] at hfc
        by_cases h2 : (translateZ (targetZ - zs.foldl max z0) c).approxLength < 1 / 48
        · rw [if_pos h2] at hfc
          exact absurd hfc (by simp)
        · rw [if_neg h2] at hfc
          exact ⟨h1, h2, (Option.some_inj.mp hfc).symm⟩
      · rw [if_neg h1] at hfc
        exact absurd hfc (by simp)
    · rintro ⟨c, hc, h1, h2, rfl⟩
      exact ⟨c, hc, by rw [if_pos h1, if_neg h2]⟩
  · intro loops hne hsel hlen hplant
    have : (create_area_boundaries_from_floor K plants view (some loops)) =
        ⟨true, (create_plant_area_boundary K plants outerLoop
          (match view.genLevelElevation with
           | some e => e
           | Option.none => view.sketchPlaneOriginZ)).2,
         draw_tree_trunks plants outerLoop
          (match view.genLevelElevation with
           | some e => e
           | Option.none => view.sketchPlaneOriginZ), []⟩ := by
      simp only [create_area_boundaries_from_floor, hne, Bool.false_eq_true,
        if_false, hsel, if_neg hlen, hplant, if_true]
    rw [this]
    exact ⟨rfl, rfl⟩

/-- Witness for C1: a non-tree plant with Spread 4 ft contributes a
disc of radius max(2, 0.05) = 2 ft. -/
theorem C1_create_plant_area_boundary_witness :
    (⟨(1 : ℚ), 2, 0⟩, max (1 / 2 * (4 : ℚ)) (1 / 20)) ∈
      collect_plants
        [⟨Option.none, some ⟨1, 2, 0⟩,
          ⟨some "Shrub", some "Planting", Option.none, some 4, Option.none⟩⟩]
        [⟨0, 0, 0⟩] (SEARCH_MARGIN_M * FT_PER_M) 0
    ∧ collect_plants
        [⟨Option.none, some ⟨1, 2, 0⟩,
          ⟨some "Shrub", some "Planting", Option.none, some 4, Option.none⟩⟩]
        [⟨0, 0, 0⟩] (SEARCH_MARGIN_M * FT_PER_M) 0 ≠ [] :=
  (C1_create_plant_area_boundary
      ⟨fun _ _ => Option.none, fun _ _ => Option.none, fun _ _ => Option.none,
       fun _ => Option.none, fun _ _ _ => Option.none, fun _ => 0⟩
      [⟨Option.none, some ⟨1, 2, 0⟩,
        ⟨some "Shrub", some "Planting", Option.none, some 4, Option.none⟩⟩]
      [] 0 ⟨Option.none, 0⟩).2.1
    ⟨0, 0, 0⟩ ⟨1, 2, 0⟩ [] 0 4
    ⟨Option.none, some ⟨1, 2, 0⟩,
      ⟨some "Shrub", some "Planting", Option.none, some 4, Option.none⟩⟩
    (List.mem_singleton.mpr rfl) rfl (by decide) rfl rfl
